import Mathlib

/-!
Verification of the RetroFuture OS storage core (FAT12 engine, RAM disk and
VFS layer, `src/include/fat12.h`, `fat12_write.h`, `ramdisk.h`, `vfs.h`)
against its natural-language specification.

Modelling conventions:
* machine integers are `Nat`, with an explicit `% 2^w` wherever the C
  arithmetic can wrap;
* byte buffers (the FAT cache, sector contents, the RAM-disk arena) are
  functions `Nat → Nat` whose stored values are kept below 256;
* the sector-addressed block device is `Disk := Nat → Nat → Nat`
  (sector number → byte index → byte value); sector reads and writes
  always succeed, mirroring a healthy device;
* C strings are `List Char` (no embedded NUL; end of list = terminator);
* the FAT12 state is modelled in its cached configuration (a FAT cache
  buffer is always supplied, as `fat12_vfs.h` does), which is the
  configuration every claim under verification speaks about.
-/

namespace Fat12

/-- Byte offset of FAT entry `n`: `off = n + n/2` (`fat12_read_fat`,
fat12.h line 173). -/
def fatOffset (cluster : Nat) : Nat := cluster + cluster / 2

/-- The little-endian 16-bit word `*(uint16_t *)&fat_cache[off]` read from a
byte buffer. -/
def word16 (fat : Nat → Nat) (off : Nat) : Nat :=
  fat off % 256 + 256 * (fat (off + 1) % 256)

/-- `fat12_read_fat` (fat12.h lines 172-201), FAT-cache branch: read the
16-bit word at `off = cluster + cluster/2`; odd clusters take the high 12
bits (`value >> 4`), even clusters the low 12 bits (`value & 0x0FFF`). -/
def fat12_read_fat (fat : Nat → Nat) (cluster : Nat) : Nat :=
  let v := word16 fat (fatOffset cluster)
  if cluster % 2 = 1 then v / 16 else v % 4096

/-- The 16-bit word stored back by `fat12_write_fat` (fat12.h lines
204-217): for odd clusters `(*entry & 0x000F) | (value << 4)` (the shift is
truncated to 16 bits by the store), for even clusters
`(*entry & 0xF000) | (value & 0x0FFF)`.  Because the kept and the inserted
bit ranges are disjoint, the C bitwise or is written as `+`. -/
def wordAfter (fat : Nat → Nat) (cluster value : Nat) : Nat :=
  let w := word16 fat (fatOffset cluster)
  if cluster % 2 = 1 then w % 16 + value * 16 % 65536
  else w / 4096 * 4096 + value % 4096

/-- `fat12_write_fat` (fat12.h lines 204-217), FAT-cache branch: the 16-bit
store of `wordAfter` updates the two bytes at `off`, `off+1`
little-endian. -/
def fat12_write_fat (fat : Nat → Nat) (cluster value : Nat) : Nat → Nat :=
  fun i =>
    if i = fatOffset cluster then wordAfter fat cluster value % 256
    else if i = fatOffset cluster + 1 then wordAfter fat cluster value / 256
    else fat i

/-- `fat12_free_chain` (fat12_write.h lines 366-372):
`while (cluster >= 2 && cluster < 0xFF8) { next = read_fat(cluster);
write_fat(cluster, FREE); cluster = next; }`.  The C loop has no intrinsic
bound, so the embedding takes explicit fuel (`none` = fuel exhausted before
the loop condition failed) and also returns the list of clusters the loop
body visited.  `0xFF8 = 4088`. -/
def fat12_free_chain_run : Nat → (Nat → Nat) → Nat → Option ((Nat → Nat) × List Nat)
  | 0, _, _ => none
  | fuel + 1, fat, cluster =>
    if 2 ≤ cluster ∧ cluster < 4088 then
      match fat12_free_chain_run fuel (fat12_write_fat fat cluster 0)
          (fat12_read_fat fat cluster) with
      | none => none
      | some (f, vs) => some (f, cluster :: vs)
    else
      some (fat, [])

/-- Number of nonzero FAT entries with index in `[2, 0xFF8)`: the measure
that bounds how many loop iterations `fat12_free_chain` can make. -/
def fatNonzeroCount (fat : Nat → Nat) : Nat :=
  (List.range' 2 4086).countP (fun c => fat12_read_fat fat c != 0)

/-- A block device: sector number → byte index → byte value.  Sector reads
and writes always succeed (healthy-device model); only indices below 512
are ever read back. -/
abbrev Disk : Type := Nat → Nat → Nat

/-- Little-endian 16-bit field of a byte buffer. -/
def le16 (b : Nat → Nat) (off : Nat) : Nat := b off % 256 + 256 * (b (off + 1) % 256)

/-- Little-endian 32-bit field of a byte buffer. -/
def le32 (b : Nat → Nat) (off : Nat) : Nat := le16 b off + 65536 * le16 b (off + 2)

/-- Overwrite one 512-byte sector of a disk (`write_sectors(lba, 1, buf)`). -/
def writeSector (disk : Disk) (lba : Nat) (content : Nat → Nat) : Disk :=
  fun s i => if s = lba then content i else disk s i

/-- `fat12_fs_t` after `fat12_mount`: the cached BPB fields the driver uses,
the layout values computed at mount time, and the FAT cache (always
supplied in this embedding, as `fat12_vfs.h` does). -/
structure Fat12Fs where
  sectors_per_cluster : Nat
  reserved_sectors : Nat
  num_fats : Nat
  root_entry_count : Nat
  fat_size_16 : Nat
  fat_start : Nat
  root_start : Nat
  data_start : Nat
  root_sectors : Nat
  total_clusters : Nat
  fat_cache : Nat → Nat
  fat_dirty : Bool
  mounted : Bool

instance : Inhabited Fat12Fs :=
  ⟨{ sectors_per_cluster := 0, reserved_sectors := 0, num_fats := 0,
     root_entry_count := 0, fat_size_16 := 0, fat_start := 0, root_start := 0,
     data_start := 0, root_sectors := 0, total_clusters := 0,
     fat_cache := fun _ => 0, fat_dirty := false, mounted := false }⟩

/-- `fat12_mount` (fat12.h lines 303-341): read the BPB from sector 0,
validate `bytes_per_sector == 512` and `num_fats != 0`, derive the layout,
and load the FAT cache from the first FAT copy.  `cacheBuf` is the caller's
cache buffer (its bytes beyond the loaded FAT remain whatever they were).
The uint32 subtraction `total_sectors - data_start` is modelled with its
wraparound; `total_clusters` divides by `sectors_per_cluster` (the C does
not validate it against zero). -/
def fat12_mount (disk : Disk) (cacheBuf : Nat → Nat) : Option Fat12Fs :=
  let b := disk 0
  let bytes_per_sector := le16 b 11
  let spc := b 13 % 256
  let reserved := le16 b 14
  let nf := b 16 % 256
  let rootEntries := le16 b 17
  let ts16 := le16 b 19
  let fsz := le16 b 22
  let ts32 := le32 b 32
  if bytes_per_sector ≠ 512 then none
  else if nf = 0 then none
  else
    let fat_start := reserved
    let root_sectors := (rootEntries * 32 + 511) / 512
    let root_start := fat_start + nf * fsz
    let data_start := root_start + root_sectors
    let total_sectors := if ts16 ≠ 0 then ts16 else ts32
    let data_sectors := (total_sectors + 4294967296 - data_start) % 4294967296
    some
      { sectors_per_cluster := spc
        reserved_sectors := reserved
        num_fats := nf
        root_entry_count := rootEntries
        fat_size_16 := fsz
        fat_start := fat_start
        root_start := root_start
        data_start := data_start
        root_sectors := root_sectors
        total_clusters := data_sectors / spc
        fat_cache := fun i => if i < fsz * 512 then disk (fat_start + i / 512) (i % 512)
                              else cacheBuf i
        fat_dirty := false
        mounted := true }

/-- BPB bytes of a tiny valid FAT12 volume: 512-byte sectors, 1 sector per
cluster, 1 reserved sector, 1 FAT of 1 sector, 16 root entries (1 root
sector), 8 total sectors — hence `data_start = 3` and 5 data clusters. -/
def tinyBpb : Nat → Nat := fun i =>
  if i = 12 then 2
  else if i = 13 then 1
  else if i = 14 then 1
  else if i = 16 then 1
  else if i = 17 then 16
  else if i = 19 then 8
  else if i = 22 then 1
  else 0

/-- A disk holding `tinyBpb` in sector 0 and zeroes elsewhere. -/
def tinyDisk : Disk := fun s i => if s = 0 then tinyBpb i else 0

/-- The tiny volume, mounted (`total_clusters = 5`, zeroed FAT cache). -/
def tinyFs : Fat12Fs := (fat12_mount tinyDisk (fun _ => 0)).getD default

/-- The tiny volume's FAT after building the chain
`2 → 3 → ⋯ → 10 → EOF` with 9 `fat12_write_fat` calls: a FAT state whose
chain is much longer than `total_clusters = 5`. -/
def longChainFat : Nat → Nat :=
  fat12_write_fat
    ((List.range' 2 8).foldl (fun f n => fat12_write_fat f n (n + 1)) tinyFs.fat_cache)
    10 4095

/-- Number of loop iterations `fat12_free_chain` makes on `longChainFat`
starting from cluster 2. -/
def longChainSteps : Nat :=
  match fat12_free_chain_run 4088 longChainFat 2 with
  | some (_, vs) => vs.length
  | none => 0

/-- Inner loop of `fat12_sync`: write `count` sectors of one FAT copy,
sector `base + i` receiving cache bytes `&fat_cache[i*512]`, ascending. -/
def syncCopy (cache : Nat → Nat) (base : Nat) : Nat → Disk → Disk
  | 0, d => d
  | i + 1, d => writeSector (syncCopy cache base i d) (base + i) (fun j => cache (i * 512 + j))

/-- Outer loop of `fat12_sync`: write FAT copies `0 .. nf-1`, copy `f`
starting at sector `fat_start + f * fat_size_16`, ascending. -/
def syncFats (fs : Fat12Fs) : Nat → Disk → Disk
  | 0, d => d
  | f + 1, d =>
    syncCopy fs.fat_cache (fs.fat_start + f * fs.fat_size_16) fs.fat_size_16
      (syncFats fs f d)

/-- `fat12_sync` (fat12.h lines 346-359): a no-op unless the FAT cache is
dirty; otherwise write the cache out to every FAT copy and clear the dirty
flag. -/
def fat12_sync (fs : Fat12Fs) (disk : Disk) : Fat12Fs × Disk :=
  if fs.fat_dirty = false then (fs, disk)
  else ({ fs with fat_dirty := false }, syncFats fs fs.num_fats disk)

/-- BPB bytes of a tiny FAT12 volume with two FAT copies (one sector
each): `fat_start = 1`, FAT copies in sectors 1 and 2. -/
def twoFatBpb : Nat → Nat := fun i =>
  if i = 12 then 2
  else if i = 13 then 1
  else if i = 14 then 1
  else if i = 16 then 2
  else if i = 17 then 16
  else if i = 19 then 9
  else if i = 22 then 1
  else 0

/-- A disk for `twoFatBpb` whose two on-disk FAT copies differ: sector 1
(the first copy) is all zero, sector 2 (the second copy) has first byte 1. -/
def twoFatDisk : Disk := fun s i =>
  if s = 0 then twoFatBpb i
  else if s = 2 ∧ i = 0 then 1
  else 0

/-- The two-FAT volume, freshly mounted (cache loaded from the first copy,
`fat_dirty = false`). -/
def twoFatFs : Fat12Fs := (fat12_mount twoFatDisk (fun _ => 0)).getD default

/-- The two-FAT volume with a dirty FAT cache (as after any
`fat12_write_fat`). -/
def twoFatFsDirty : Fat12Fs := { twoFatFs with fat_dirty := true }

/-- `fat12_file_t` (fat12.h lines 127-137): the open flag, stream state and
the cached directory-entry fields the read/write/seek paths use
(`dirent.file_size`, `dirent.cluster_low`); `fs` is passed explicitly. -/
structure fat12_file_t where
  f_open : Bool
  position : Nat
  cluster : Nat
  cluster_offset : Nat
  file_size : Nat
  cluster_low : Nat
  dirty : Bool

instance : Inhabited fat12_file_t :=
  ⟨{ f_open := false, position := 0, cluster := 0, cluster_offset := 0,
     file_size := 0, cluster_low := 0, dirty := false }⟩

/-- `fat12_cluster_to_sector` (fat12.h lines 167-169):
`data_start + (cluster - 2) * sectors_per_cluster`, computed in int then
converted to uint32. -/
def fat12_cluster_to_sector (fs : Fat12Fs) (cluster : Nat) : Nat :=
  (((fs.data_start : Int) + ((cluster : Int) - 2) * fs.sectors_per_cluster) %
    4294967296).toNat

/-- `fat12_find_free_cluster` (fat12.h lines 225-232): first cluster in
`[2, total_clusters + 2)` whose FAT entry is `FAT12_CLUSTER_FREE`, else 0. -/
def fat12_find_free_cluster (fs : Fat12Fs) : Nat :=
  match (List.range' 2 fs.total_clusters).find?
      (fun i => fat12_read_fat fs.fat_cache i == 0) with
  | some c => c
  | none => 0

/-- `fat12_alloc_cluster` (fat12_write.h lines 329-339): find a free
cluster and mark it `FAT12_CLUSTER_EOF` (0xFFF). -/
def fat12_alloc_cluster (fs : Fat12Fs) : Fat12Fs × Nat :=
  let c := fat12_find_free_cluster fs
  if c = 0 then (fs, 0)
  else
    ({ fs with
         fat_cache := fat12_write_fat fs.fat_cache c 4095,
         fat_dirty := true }, c)

/-- `fat12_extend_chain` (fat12_write.h lines 348-357): allocate a cluster
and link it after `last`. -/
def fat12_extend_chain (fs : Fat12Fs) (last : Nat) : Fat12Fs × Nat :=
  let r := fat12_alloc_cluster fs
  if r.2 = 0 then (r.1, 0)
  else
    ({ r.1 with
         fat_cache := fat12_write_fat r.1.fat_cache last r.2,
         fat_dirty := true }, r.2)

/-- The `while (size > 0)` loop of `fat12_write` (fat12_write.h lines
624-685).  One recursion step is one loop iteration; the remaining input is
`data`, `written` accumulates `bytes_written`.  Every iteration consumes
`to_write ≥ 1` input bytes, so fuel `data.length + 1` reaches a genuine
loop exit; `break` returns the state accumulated so far, as the C does.
A written sector's bytes outside the copied range keep the freshly read
disk contents — faithful because the read-back is skipped only when
`offset = 0` and `size ≥ 512`, in which case `to_write = 512` covers the
whole sector. -/
def fat12_write_loop : Nat → Fat12Fs → Disk → fat12_file_t → List Nat → Nat →
    Fat12Fs × Disk × fat12_file_t × Nat
  | 0, fs, disk, file, _, written => (fs, disk, file, written)
  | fuel + 1, fs, disk, file, data, written =>
    if data.length = 0 then (fs, disk, file, written)
    else
      let st1 : Option (Fat12Fs × fat12_file_t) :=
        if file.cluster = 0 then
          let r := fat12_alloc_cluster fs
          if r.2 = 0 then none
          else
            some (r.1, { file with
                           cluster := r.2,
                           cluster_low := r.2,
                           cluster_offset := 0,
                           dirty := true })
        else some (fs, file)
      match st1 with
      | none => (fs, disk, file, written)
      | some (fs1, file1) =>
        let cluster_size := fs1.sectors_per_cluster * 512
        let st2 : Option (Fat12Fs × fat12_file_t) :=
          if cluster_size ≤ file1.cluster_offset then
            let next := fat12_read_fat fs1.fat_cache file1.cluster
            if 4088 ≤ next then
              let r := fat12_extend_chain fs1 file1.cluster
              if r.2 = 0 then none
              else some (r.1, { file1 with cluster := r.2, cluster_offset := 0 })
            else some (fs1, { file1 with cluster := next, cluster_offset := 0 })
          else some (fs1, file1)
        match st2 with
        | none => (fs1, disk, file1, written)
        | some (fs2, file2) =>
          let sector := (fat12_cluster_to_sector fs2 file2.cluster +
            file2.cluster_offset / 512) % 4294967296
          let offset := file2.cluster_offset % 512
          let to_write := min (512 - offset) data.length
          let content : Nat → Nat := fun i =>
            if offset ≤ i ∧ i < offset + to_write then data.getD (i - offset) 0 % 256
            else disk sector i
          let disk2 := writeSector disk sector content
          let pos2 := (file2.position + to_write) % 4294967296
          let co2 := (file2.cluster_offset + to_write) % 4294967296
          let file3 :=
            if file2.file_size < pos2 then
              { file2 with
                  position := pos2,
                  cluster_offset := co2,
                  file_size := pos2,
                  dirty := true }
            else { file2 with position := pos2, cluster_offset := co2 }
          fat12_write_loop fuel fs2 disk2 file3 (data.drop to_write)
            (written + to_write)

/-- `fat12_write` (fat12_write.h lines 617-687): returns the filesystem,
the disk, the handle and `bytes_written`. -/
def fat12_write (fs : Fat12Fs) (disk : Disk) (file : fat12_file_t)
    (data : List Nat) : Fat12Fs × Disk × fat12_file_t × Nat :=
  if ¬ file.f_open = true then (fs, disk, file, 0)
  else fat12_write_loop (data.length + 1) fs disk file data 0

/-- The chain-walking loop of `fat12_seek` (fat12.h lines 600-606) on
(cluster, position); `none` is exhausted fuel (the C loop does not
terminate when `sectors_per_cluster` is 0). -/
def fat12_seek_loop : Nat → Fat12Fs → Nat → Nat → Nat → Option (Nat × Nat)
  | 0, _, _, _, _ => none
  | fuel + 1, fs, cluster, pos, target =>
    let cluster_size := fs.sectors_per_cluster * 512
    if (pos + cluster_size) % 4294967296 ≤ target then
      let next := fat12_read_fat fs.fat_cache cluster
      if 4088 ≤ next then some (cluster, pos)
      else fat12_seek_loop fuel fs next ((pos + cluster_size) % 4294967296) target
    else some (cluster, pos)

/-- `fat12_seek` (fat12.h lines 588-612): restart from
`dirent.cluster_low`, follow the chain by whole clusters, set
`cluster_offset` to the remainder. -/
def fat12_seek (fs : Fat12Fs) (file : fat12_file_t) (position : Nat) :
    Option (fat12_file_t × Bool) :=
  if ¬ file.f_open = true then some (file, false)
  else if file.file_size < position then some (file, false)
  else
    match fat12_seek_loop (position + 1) fs file.cluster_low 0 position with
    | none => none
    | some (c, p) =>
      some ({ file with
                cluster := c,
                position := position,
                cluster_offset :=
                  (position + 4294967296 - p % 4294967296) % 4294967296 },
            true)

/-- The sector-at-a-time inner loop of `fat12_read` (fat12.h lines
553-572): read `to_read` bytes starting at (`sector`, `offset`), advancing
one sector at a time.  Each iteration consumes `chunk ≥ 1` bytes (the
first `offset` is below 512 and later ones are 0), so fuel `to_read + 1`
always reaches the `to_read = 0` exit. -/
def fat12_read_inner : Nat → Disk → fat12_file_t → Nat → Nat → Nat → List Nat →
    fat12_file_t × List Nat
  | 0, _, file, _, _, _, acc => (file, acc)
  | fuel + 1, disk, file, sector, offset, to_read, acc =>
    if to_read = 0 then (file, acc)
    else
      let chunk := min (512 - offset) to_read
      let bytes := (List.range chunk).map (fun i => disk sector (offset + i) % 256)
      let file2 := { file with
        position := (file.position + chunk) % 4294967296,
        cluster_offset := (file.cluster_offset + chunk) % 4294967296 }
      fat12_read_inner fuel disk file2 ((sector + 1) % 4294967296) 0
        (to_read - chunk) (acc ++ bytes)

/-- The outer `while (size > 0 && position < file_size)` loop of
`fat12_read` (fat12.h lines 531-574).  The uint32 underflow of
`cluster_size - cluster_offset` is kept; each completing iteration
consumes `to_read ≥ 1` bytes of `size`, so fuel `size + 1` reaches a
genuine exit whenever the C loop terminates. -/
def fat12_read_loop : Nat → Fat12Fs → Disk → fat12_file_t → Nat → List Nat →
    fat12_file_t × List Nat
  | 0, _, _, file, _, acc => (file, acc)
  | fuel + 1, fs, disk, file, size, acc =>
    let cluster_size := fs.sectors_per_cluster * 512
    if size = 0 ∨ file.file_size ≤ file.position then (file, acc)
    else
      let remaining := file.file_size - file.position
      let size1 := if remaining < size then remaining else size
      let st : Option fat12_file_t :=
        if cluster_size ≤ file.cluster_offset then
          let next := fat12_read_fat fs.fat_cache file.cluster
          if 4088 ≤ next then none
          else some { file with cluster := next, cluster_offset := 0 }
        else some file
      match st with
      | none => (file, acc)
      | some file1 =>
        let to_read0 := (cluster_size + 4294967296 - file1.cluster_offset % 4294967296)
          % 4294967296
        let to_read := if size1 < to_read0 then size1 else to_read0
        let sector := (fat12_cluster_to_sector fs file1.cluster +
          file1.cluster_offset / 512) % 4294967296
        let offset := file1.cluster_offset % 512
        let r := fat12_read_inner (to_read + 1) disk file1 sector offset to_read acc
        fat12_read_loop fuel fs disk r.1 (size1 - to_read) r.2

/-- `fat12_read` (fat12.h lines 523-576): the returned list is the output
buffer; its length is the returned byte count. -/
def fat12_read (fs : Fat12Fs) (disk : Disk) (file : fat12_file_t) (size : Nat) :
    fat12_file_t × List Nat :=
  if ¬ file.f_open = true then (file, [])
  else fat12_read_loop (size + 1) fs disk file size []

/-- A disk like `tinyDisk` whose on-disk FAT holds the self-loop
`FAT[2] = 2` (bytes 3/4 of the FAT sector hold the 16-bit word 2; cluster
2 is even, so its entry is that word's low 12 bits). -/
def selfLoopDisk : Disk := fun s i =>
  if s = 0 then tinyBpb i else if s = 1 ∧ i = 3 then 2 else 0

/-- The self-loop volume, mounted. -/
def selfLoopFs : Fat12Fs := (fat12_mount selfLoopDisk (fun _ => 0)).getD default

/-- A freshly opened handle on an empty-sized file whose first cluster is
the self-looping cluster 2. -/
def c1File : fat12_file_t :=
  { f_open := true, position := 0, cluster := 2, cluster_offset := 0,
    file_size := 0, cluster_low := 2, dirty := false }

/-- 513 bytes: a zero sector followed by a single 1. -/
def c1Data : List Nat := List.replicate 512 0 ++ [1]

/-- Writing `c1Data` through the self-loop. -/
def c1Write : Fat12Fs × Disk × fat12_file_t × Nat :=
  fat12_write selfLoopFs selfLoopDisk c1File c1Data

/-- Seek back to 0 and read the 513 bytes back. -/
def c1ReadBack : List Nat :=
  match fat12_seek c1Write.1 c1Write.2.2.1 0 with
  | some r => (fat12_read c1Write.1 c1Write.2.1 r.1 513).2
  | none => []

/-- A freshly opened handle on an empty file (no cluster yet). -/
def c1FreshFile : fat12_file_t :=
  { f_open := true, position := 0, cluster := 0, cluster_offset := 0,
    file_size := 0, cluster_low := 0, dirty := false }

/-- Uppercase conversion applied per character by `fat12_string_to_name`. -/
def toUpperByte (c : Char) : Nat :=
  if 'a' ≤ c ∧ c ≤ 'z' then c.toNat - 32 else c.toNat

/-- `fat12_string_to_name` (fat12.h lines 259-283): split at the first dot,
uppercase, produce the space-padded 8-byte name and 3-byte extension.  The
extension copy takes up to 3 characters after the first dot, dots
included, as the C loop does. -/
def fat12_string_to_name (str : List Char) : List Nat × List Nat :=
  let namePart := ((str.takeWhile (fun c => c ≠ '.')).take 8).map toUpperByte
  let extPart :=
    (((str.dropWhile (fun c => c ≠ '.')).drop 1).take 3).map toUpperByte
  (namePart ++ List.replicate (8 - namePart.length) 32,
   extPart ++ List.replicate (3 - extPart.length) 32)

/-- `fat12_name_match` (fat12.h lines 286-294) against the directory entry
at byte offset `off` of a sector. -/
def fat12_name_match (sec : Nat → Nat) (off : Nat) (nb eb : List Nat) : Bool :=
  ((List.range 8).all fun i => sec (off + i) % 256 == nb.getD i 0) &&
  ((List.range 3).all fun i => sec (off + 8 + i) % 256 == eb.getD i 0)

/-- The `if (*path == '/') path++` prologue shared by `fat12_open` and
`fat12_delete`. -/
def fat12_strip_slash (path : List Char) : List Char :=
  if path.headD ' ' = '/' then path.drop 1 else path

/-- The inner entry loop of the `fat12_delete` scan (fat12_write.h lines
748-761): walk entries `i, i+1, …` of one sector (`cnt` entries left),
stopping at a 0x00 name byte, skipping deleted (0xE5) and LFN
(attributes = 0x0F) entries, returning the first name/ext match. -/
def fat12_scan_entries (sec : Nat → Nat) (nb eb : List Nat) : Nat → Nat → Option Nat
  | 0, _ => none
  | cnt + 1, i =>
    if sec (i * 32) % 256 = 0 then none
    else if sec (i * 32) % 256 = 229 then fat12_scan_entries sec nb eb cnt (i + 1)
    else if sec (i * 32 + 11) % 256 = 15 then fat12_scan_entries sec nb eb cnt (i + 1)
    else if fat12_name_match sec (i * 32) nb eb then some i
    else fat12_scan_entries sec nb eb cnt (i + 1)

/-- The outer sector loop of the `fat12_delete` scan (fat12_write.h lines
745-762): unlike `fat12_read_dir`, a 0x00 terminator only ends the current
sector's scan, and the search continues in the next root sector. -/
def fat12_scan_root (fs : Fat12Fs) (disk : Disk) (nb eb : List Nat) :
    Nat → Nat → Option (Nat × Nat)
  | 0, _ => none
  | cnt + 1, s =>
    match fat12_scan_entries (disk (fs.root_start + s)) nb eb 16 0 with
    | some i => some (fs.root_start + s, i)
    | none => fat12_scan_root fs disk nb eb cnt (s + 1)

/-- `fat12_delete` (fat12_write.h lines 727-784): find the first matching
live root entry, refuse directories, free the cluster chain (cache only),
mark the entry 0xE5 in its sector, and `fat12_sync`. -/
def fat12_delete (fs : Fat12Fs) (disk : Disk) (path : List Char) :
    Fat12Fs × Disk × Bool :=
  let p := fat12_strip_slash path
  if p.isEmpty then (fs, disk, false)
  else
    let ne := fat12_string_to_name p
    match fat12_scan_root fs disk ne.1 ne.2 fs.root_sectors 0 with
    | none => (fs, disk, false)
    | some (sec, idx) =>
      if disk sec (idx * 32 + 11) % 256 / 16 % 2 = 1 then (fs, disk, false)
      else
        let clow := le16 (disk sec) (idx * 32 + 26)
        let run := (fat12_free_chain_run 4088 fs.fat_cache clow).getD
          (fs.fat_cache, [])
        let fs1 :=
          if 2 ≤ clow then
            { fs with
                fat_cache := run.1,
                fat_dirty := if run.2.isEmpty = true then fs.fat_dirty else true }
          else fs
        let disk1 := writeSector disk sec
          (fun b => if b = idx * 32 then 229 else disk sec b)
        let sy := fat12_sync fs1 disk1
        (sy.1, sy.2, true)

/-- `fat12_dir_t` (fat12.h lines 140-146), without the back pointer. -/
structure fat12_dir_t where
  sector : Nat
  entry : Nat
  cluster : Nat
  is_root : Bool

/-- `fat12_read_dir` (fat12.h lines 399-449): one recursion step per
`while (1)` iteration.  The returned `some (dir2, some (sec, e))` is the
next live non-LFN entry's sector and index (the C copies the 32 bytes out
of the sector buffer); `some (dir2, none)` is the C `return false`;
`none` is exhausted fuel. -/
def fat12_read_dir : Nat → Fat12Fs → Disk → fat12_dir_t →
    Option (fat12_dir_t × Option (Nat × Nat))
  | 0, _, _, _ => none
  | fuel + 1, fs, disk, dir =>
    if dir.is_root = true ∧ fs.root_start + fs.root_sectors ≤ dir.sector then
      some (dir, none)
    else if ¬ dir.is_root = true ∧
        fat12_cluster_to_sector fs dir.cluster + fs.sectors_per_cluster ≤
          dir.sector then
      let next := fat12_read_fat fs.fat_cache dir.cluster
      if 4088 ≤ next then some (dir, none)
      else
        fat12_read_dir fuel fs disk
          { dir with cluster := next, sector := fat12_cluster_to_sector fs next }
    else
      let sec := dir.sector
      let e := dir.entry
      let dir2 :=
        if 16 ≤ dir.entry + 1 then { dir with entry := 0, sector := dir.sector + 1 }
        else { dir with entry := dir.entry + 1 }
      if disk sec (e * 32) % 256 = 0 then some (dir2, none)
      else if disk sec (e * 32) % 256 = 229 then fat12_read_dir fuel fs disk dir2
      else if disk sec (e * 32 + 11) % 256 = 15 then fat12_read_dir fuel fs disk dir2
      else some (dir2, some (sec, e))

/-- `fat12_find_in_dir` (fat12.h lines 452-464): iterate `fat12_read_dir`
until a name match. -/
def fat12_find_in_dir : Nat → Fat12Fs → Disk → fat12_dir_t → List Nat → List Nat →
    Option (fat12_dir_t × Option (Nat × Nat))
  | 0, _, _, _, _, _ => none
  | fuel + 1, fs, disk, dir, nb, eb =>
    match fat12_read_dir (fuel + 1) fs disk dir with
    | none => none
    | some (dir2, none) => some (dir2, none)
    | some (dir2, some (sec, e)) =>
      if fat12_name_match (disk sec) (e * 32) nb eb then some (dir2, some (sec, e))
      else fat12_find_in_dir fuel fs disk dir2 nb eb

/-- The component loop of `fat12_open` (fat12.h lines 484-506).  Directory
scans get fuel `16 * root_sectors + 2`, enough for any root-directory
scan; `none` means a scan or the loop ran out of fuel. -/
def fat12_open_loop : Nat → Fat12Fs → Disk → fat12_dir_t → List Char → Option Bool
  | 0, _, _, _, _ => none
  | fuel + 1, fs, disk, dir, path =>
    let comp := (path.takeWhile (fun c => c ≠ '/')).take 12
    let rest0 := path.drop comp.length
    let rest := if rest0.headD ' ' = '/' then rest0.drop 1 else rest0
    let ne := fat12_string_to_name comp
    match fat12_find_in_dir (16 * fs.root_sectors + 2) fs disk dir ne.1 ne.2 with
    | none => none
    | some (_, none) => some false
    | some (_, some (sec, e)) =>
      if rest.isEmpty then some true
      else if disk sec (e * 32 + 11) % 256 / 16 % 2 = 1 then
        fat12_open_loop fuel fs disk
          { sector := fat12_cluster_to_sector fs (le16 (disk sec) (e * 32 + 26)),
            entry := 0,
            cluster := le16 (disk sec) (e * 32 + 26),
            is_root := false }
          rest
      else some false

/-- `fat12_open` (fat12.h lines 473-518), result only: `some true` when a
handle is produced, `some false` for the C `return false`, `none` when a
fuel bound is hit. -/
def fat12_open (fs : Fat12Fs) (disk : Disk) (path : List Char) : Option Bool :=
  let p := fat12_strip_slash path
  if p.isEmpty then some false
  else
    fat12_open_loop (p.length + 1) fs disk
      { sector := fs.root_start, entry := 0, cluster := 0, is_root := true } p

/-- A live, matching root-directory entry for name bytes `nb`/`eb`. -/
def LiveMatchEntry (fs : Fat12Fs) (disk : Disk) (nb eb : List Nat) (s i : Nat) : Prop :=
  fs.root_start ≤ s ∧ s < fs.root_start + fs.root_sectors ∧ i < 16 ∧
  disk s (i * 32) % 256 ≠ 0 ∧ disk s (i * 32) % 256 ≠ 229 ∧
  disk s (i * 32 + 11) % 256 ≠ 15 ∧
  fat12_name_match (disk s) (i * 32) nb eb = true

/-- A disk like `tinyDisk` with two identical live root entries "A" (root
sector 2, entries 0 and 1) and an empty FAT. -/
def dupDisk : Disk := fun s i =>
  if s = 0 then tinyBpb i
  else if s = 2 ∧ (i = 0 ∨ i = 32) then 65
  else if s = 2 ∧ ((1 ≤ i ∧ i ≤ 10) ∨ (33 ≤ i ∧ i ≤ 42)) then 32
  else 0

/-- The duplicate-entry volume, mounted. -/
def dupFs : Fat12Fs := (fat12_mount dupDisk (fun _ => 0)).getD default

/-- Deleting "/A" on the duplicate-entry volume. -/
def c7Delete : Fat12Fs × Disk × Bool := fat12_delete dupFs dupDisk "/A".toList

/-- Re-opening "/A" after the delete. -/
def c7Reopen : Option Bool := fat12_open c7Delete.1 c7Delete.2.1 "/A".toList

/-- A tiny volume whose sole root entry "B" carries the directory
attribute (byte 11 = 0x10). -/
def dirDisk : Disk := fun s i =>
  if s = 0 then tinyBpb i
  else if s = 2 ∧ i = 0 then 66
  else if s = 2 ∧ 1 ≤ i ∧ i ≤ 10 then 32
  else if s = 2 ∧ i = 11 then 16
  else 0

/-- The directory-entry volume, mounted. -/
def dirFs : Fat12Fs := (fat12_mount dirDisk (fun _ => 0)).getD default

end Fat12

namespace Vfs

/-- `path++; if (*path == '/') path++;` — the slash skip after a `.` or
`..` component in `vfs_normalize_path`. -/
def dropOneSlash (l : List Char) : List Char :=
  match l with
  | c :: rest => if c = '/' then rest else l
  | [] => l

/-- The component-copy inner loop of `vfs_normalize_path` (vfs.h lines
309-313): `while (*path && *path != '/' && len < VFS_MAX_PATH - 1)
buf[len++] = *path++;`.  Returns the remaining path and the grown buffer
(`VFS_MAX_PATH - 1 = 255`). -/
def copyComp : List Char → List Char → List Char × List Char
  | [], buf => ([], buf)
  | c :: rest, buf =>
    if c = '/' then (c :: rest, buf)
    else if 255 ≤ buf.length then (c :: rest, buf)
    else copyComp rest (buf ++ [c])

/-- `while (len > 0 && buf[len-1] != '/') len--;`: drop the trailing run of
non-slash characters. -/
def stripTailComp (buf : List Char) : List Char :=
  (buf.reverse.dropWhile (fun c => c != '/')).reverse

/-- The `..` handling of `vfs_normalize_path` (vfs.h lines 303-306):
`if (len > 1) { len--; while (len > 0 && buf[len-1] != '/') len--; }`. -/
def popComponent (buf : List Char) : List Char :=
  if 1 < buf.length then stripTailComp buf.dropLast else buf

/-- The main loop of `vfs_normalize_path` (vfs.h lines 286-314):
`while (*path && len < VFS_MAX_PATH - 1) { ... }` with the four branches
(slash, `.`, `..`, component copy).  Every iteration consumes at least one
character of `path`, so fuel `path.length + 1` always reaches the real loop
exit; the fuel-exhausted clause returns the buffer unchanged and is never
hit by `vfs_normalize_path`. -/
def normLoopF : Nat → List Char → List Char → List Char
  | 0, _, buf => buf
  | fuel + 1, path, buf =>
    match path with
    | [] => buf
    | c :: rest =>
      if 255 ≤ buf.length then buf
      else if c = '/' then
        normLoopF fuel rest
          (if buf.length = 0 ∨ ¬ buf.getLast? = some '/' then buf ++ ['/'] else buf)
      else if c = '.' ∧ (rest.head? = some '/' ∨ rest = []) then
        normLoopF fuel (dropOneSlash rest) buf
      else if c = '.' ∧ rest.head? = some '.' ∧
          (rest.tail.head? = some '/' ∨ rest.tail = []) then
        normLoopF fuel (dropOneSlash rest.tail) (popComponent buf)
      else
        normLoopF fuel (copyComp (c :: rest) buf).1 (copyComp (c :: rest) buf).2

/-- `vfs_normalize_path` (vfs.h lines 271-325) over `List Char` strings:
seed the buffer with the cwd (plus a `/` unless it already ends in one)
when the path is relative, run the normalization loop, and turn an empty
result into "/". -/
def vfs_normalize_path (path cwd : List Char) : List Char :=
  let buf0 : List Char :=
    if path.head? = some '/' then []
    else if 0 < cwd.length ∧ ¬ cwd.getLast? = some '/' then cwd ++ ['/'] else cwd
  let buf := normLoopF (path.length + 1) path buf0
  if buf.length = 0 then ['/'] else buf

/-- `vfs_strcmp` (vfs.h lines 254-257): `while (*a && *a == *b) {a++; b++;}
return *a - *b;` (unsigned-char difference; list end is the NUL). -/
def vfs_strcmp : List Char → List Char → Int
  | [], [] => 0
  | [], d :: _ => 0 - (d.toNat : Int)
  | c :: _, [] => (c.toNat : Int)
  | c :: a, d :: b => if c = d then vfs_strcmp a b else (c.toNat : Int) - (d.toNat : Int)

/-- `vfs_strncmp` (vfs.h lines 259-262):
`while (n && *a && *a == *b) {a++; b++; n--;} return n ? *a - *b : 0;`. -/
def vfs_strncmp : List Char → List Char → Nat → Int
  | _, _, 0 => 0
  | [], [], _ + 1 => 0
  | [], d :: _, _ + 1 => 0 - (d.toNat : Int)
  | c :: _, [], _ + 1 => (c.toNat : Int)
  | c :: a, d :: b, n + 1 => if c = d then vfs_strncmp a b n else (c.toNat : Int) - (d.toNat : Int)

/-- One slot of the `g_vfs.mounts` array: the fields `vfs_find_mount`,
`vfs_mount` and `vfs_unmount` read or write.  The device, the operation
table and the fs-private buffers do not influence the mount-table logic and
are elided (the mount hook's success is a parameter of `vfs_mount`). -/
structure VfsMountSlot where
  path : List Char
  mounted : Bool
  readonly : Bool

instance : Inhabited VfsMountSlot := ⟨{ path := [], mounted := false, readonly := false }⟩

/-- One slot of the `g_vfs.files` table, as far as `vfs_unmount`'s teardown
loop touches it: the open flag and which mount the handle belongs to. -/
structure VfsFileSlot where
  f_open : Bool
  mount_idx : Option Nat

instance : Inhabited VfsFileSlot := ⟨{ f_open := false, mount_idx := none }⟩

/-- `vfs_state_t` (vfs.h lines 222-230): 8 mount slots, the running
`mount_count`, the distinguished root mount, and the open-file table. -/
structure VfsState where
  mounts : List VfsMountSlot
  mount_count : Nat
  root_mount : Option Nat
  files : List VfsFileSlot

/-- `vfs_init` (vfs.h lines 370-380). -/
def vfs_init : VfsState :=
  { mounts := List.replicate 8 default
    mount_count := 0
    root_mount := none
    files := List.replicate 32 default }

/-- `vfs_find_mount` (vfs.h lines 330-349): scan `i = 0 .. mount_count-1`,
skip unmounted slots, keep the mounted slot whose path is a string prefix
of `path` (`vfs_strncmp(path, m->path, mlen) == 0`) with the greatest
`mlen`; fall back to the root mount (which may be absent → `none`,
modelling the C NULL). -/
def vfs_find_mount (st : VfsState) (path : List Char) : Option Nat :=
  let r := (List.range st.mount_count).foldl
    (fun (acc : Option Nat × Nat) i =>
      let m := st.mounts.getD i default
      if ¬ m.mounted then acc
      else if vfs_strncmp path m.path m.path.length = 0 ∧ acc.2 < m.path.length then
        (some i, m.path.length)
      else acc)
    (none, 0)
  match r.1 with
  | some i => some i
  | none => st.root_mount

/-- `vfs_mount` (vfs.h lines 385-420): take the first free slot, fill in
its fields, run the filesystem mount hook (its success is the parameter
`mount_hook_ok`; on failure the slot keeps the written fields but is not
marked mounted), then mark mounted, bump `mount_count`, and record the slot
as root mount when the path is "/". -/
def vfs_mount (st : VfsState) (path : List Char) (readonly : Bool)
    (mount_hook_ok : Bool) : VfsState × Option Nat :=
  match (List.range 8).find? (fun i => !(st.mounts.getD i default).mounted) with
  | none => (st, none)
  | some i =>
    let slot0 : VfsMountSlot := { path := path, mounted := false, readonly := readonly }
    let st1 := { st with mounts := st.mounts.set i slot0 }
    if mount_hook_ok = false then (st1, none)
    else
      let slot1 : VfsMountSlot := { path := path, mounted := true, readonly := readonly }
      let st2 := { st1 with mounts := st1.mounts.set i slot1,
                            mount_count := st1.mount_count + 1 }
      let st3 := if vfs_strcmp path ['/'] = 0 then { st2 with root_mount := some i } else st2
      (st3, some i)

/-- `vfs_unmount` (vfs.h lines 425-452): resolve the mount with
`vfs_find_mount`, refuse when absent or not mounted, force-close every open
file handle on it (the per-fs close hook only touches fs-private state and
is elided), clear the mounted flag, decrement `mount_count`, and clear the
root mount when it was unmounted. -/
def vfs_unmount (st : VfsState) (path : List Char) : VfsState × Bool :=
  match vfs_find_mount st path with
  | none => (st, false)
  | some mi =>
    let m := st.mounts.getD mi default
    if ¬ m.mounted then (st, false)
    else
      let st1 := { st with
        files := st.files.map fun f =>
          if f.f_open ∧ f.mount_idx = some mi then { f with f_open := false } else f
        mounts := st.mounts.set mi { m with mounted := false }
        mount_count := st.mount_count - 1 }
      let st2 := if st1.root_mount = some mi then { st1 with root_mount := none } else st1
      (st2, true)

/-- Trace for C3: mount "/" (slot 0), mount "/a" (slot 1), then unmount
"/".  Slot 1 stays a live mount but `mount_count` drops to 1. -/
def c3State : VfsState :=
  (vfs_unmount
    ((vfs_mount ((vfs_mount vfs_init "/".toList false true).1) "/a".toList false true).1)
    "/".toList).1

/-- The open-handle fields of `vfs_file_t` that `vfs_write` consults, plus
the fs-private pointer the FAT12 write operation checks. -/
structure VfsWFile where
  f_open : Bool
  flags : Nat
  position : Nat
  fs_data : Option Nat

/-- The mount fields `vfs_write` consults: whether the operation table has
a write hook, and the readonly flag. -/
structure VfsWMount where
  readonly : Bool
  ops_write_present : Bool

/-- `vfs_write` (vfs.h lines 533-539): `-1` when the handle is closed, the
mount pointer is NULL, the operation table lacks `write`, or the mount is
readonly; otherwise forward to the filesystem write `w` — the handle's open
flags are never consulted.  `w` stands for `mnt->ops->write` (only used
when the presence flag is set). -/
def vfs_write (file : VfsWFile) (mnt : Option VfsWMount)
    (w : VfsWFile → List Nat → Nat → Int) (buf : List Nat) (size : Nat) : Int :=
  if ¬ file.f_open then -1
  else
    match mnt with
    | none => -1
    | some m =>
      if ¬ m.ops_write_present then -1
      else if m.readonly then -1
      else w file buf size

/-- The `fstate == NULL` guard of the registered FAT12 write operation
`fat12_vfs_write` (fat12_vfs.h lines 311-317): `-1` when the handle carries
no filesystem-private state, else the byte count the underlying
`fat12_write` produced (abstracted as the argument `bytes`). -/
def fat12_vfs_write_guard (bytes : Nat) (file : VfsWFile) (_buf : List Nat)
    (_size : Nat) : Int :=
  match file.fs_data with
  | none => -1
  | some _ => (bytes : Int)

/-- An open handle on a writable FAT12 mount whose `fs_data` is unset. -/
def c10File : VfsWFile := { f_open := true, flags := 1, position := 0, fs_data := none }

/-- An open handle (flags = `VFS_O_RDONLY`) with filesystem state set. -/
def c10FileOk : VfsWFile := { f_open := true, flags := 1, position := 0, fs_data := some 0 }

/-- A live, writable mount whose operation table provides `write`. -/
def c10Mount : VfsWMount := { readonly := false, ops_write_present := true }

end Vfs

namespace Ramdisk

/-!
Embedding of `ramdisk.h`.  `uint32` arithmetic carries an explicit
`% 4294967296` wherever the C value can wrap.  The pure bookkeeping that no
control flow ever reads — `last_error` and the statistics counters
(`total_reads`, `total_writes`, `total_created`, `total_deleted`,
`bytes_read`, `bytes_written`) — is elided; `data_used` is kept.  The tick
counter `g_ramdisk_ticks` is never advanced inside the modelled sources and
is taken as 0.  Flag tests are written arithmetically:
`flags & RAMDISK_FILE_USED (0x01)` is `flags % 2 = 1` and
`flags & RAMDISK_FILE_READONLY (0x04)` is `flags / 4 % 2 = 1`.
-/

/-- `ramdisk_file_t` (ramdisk.h lines 68-76). -/
structure ramdisk_file_t where
  name : List Char
  size : Nat
  offset : Nat
  allocated : Nat
  flags : Nat
  created : Nat
  modified : Nat

instance : Inhabited ramdisk_file_t :=
  ⟨{ name := [], size := 0, offset := 0, allocated := 0, flags := 0,
     created := 0, modified := 0 }⟩

/-- `ramdisk_t` (ramdisk.h lines 82-104): 128 file slots, the arena bytes,
and the bump allocator state. -/
structure ramdisk_t where
  files : List ramdisk_file_t
  file_count : Nat
  data : Nat → Nat
  data_size : Nat
  data_used : Nat
  data_ptr : Nat
  initialized : Bool

instance : Inhabited ramdisk_t :=
  ⟨{ files := [], file_count := 0, data := fun _ => 0, data_size := 0,
     data_used := 0, data_ptr := 0, initialized := false }⟩

/-- `ramdisk_handle_t` (ramdisk.h lines 110-118); the C `file`/`disk`
pointers become the slot index plus explicit state threading. -/
structure ramdisk_handle_t where
  file_index : Nat
  position : Nat
  h_open : Bool
  write_mode : Bool
  append_mode : Bool

instance : Inhabited ramdisk_handle_t :=
  ⟨{ file_index := 0, position := 0, h_open := false, write_mode := false,
     append_mode := false }⟩

/-- `rd_strcasecmp` (ramdisk.h lines 177-186). -/
def rd_strcasecmp : List Char → List Char → Int
  | [], [] => 0
  | [], d :: _ => 0 - (d.toNat : Int)
  | c :: _, [] => (c.toNat : Int)
  | c :: a, d :: b =>
    let ca := if 'A' ≤ c ∧ c ≤ 'Z' then c.toNat + 32 else c.toNat
    let cb := if 'A' ≤ d ∧ d ≤ 'Z' then d.toNat + 32 else d.toNat
    if ca ≠ cb then (ca : Int) - (cb : Int) else rd_strcasecmp a b

/-- `RAMDISK_FILE_USED | flags`: set bit 0. -/
def setBit0 (fl : Nat) : Nat := if fl % 2 = 1 then fl else fl + 1

/-- `ramdisk_init` (ramdisk.h lines 227-257): refuse arenas smaller than one
block, zero the file table and the arena. -/
def ramdisk_init (dataArea : Nat → Nat) (size : Nat) : Option ramdisk_t :=
  if size < 512 then none
  else
    some { files := List.replicate 128 default
           file_count := 0
           data := fun a => if a < size then 0 else dataArea a
           data_size := size
           data_used := 0
           data_ptr := 0
           initialized := true }

/-- `ramdisk_find` (ramdisk.h lines 296-311): first USED slot whose name
matches case-insensitively (`none` models the C return value `-1`). -/
def ramdisk_find (rd : ramdisk_t) (name : List Char) : Option Nat :=
  if ¬ rd.initialized = true then none
  else
    (List.range 128).find? fun i =>
      let f := rd.files.getD i default
      (f.flags % 2 == 1) && (rd_strcasecmp f.name name == 0)

/-- `ramdisk_find_free_slot` (ramdisk.h lines 316-324). -/
def ramdisk_find_free_slot (rd : ramdisk_t) : Option Nat :=
  (List.range 128).find? fun i => !((rd.files.getD i default).flags % 2 == 1)

/-- `ramdisk_exists` (ramdisk.h lines 329-336). -/
def ramdisk_exists (rd : ramdisk_t) (name : List Char) : Bool :=
  (ramdisk_find rd name).isSome

/-- `ramdisk_create` (ramdisk.h lines 341-380): validate the name length
(max 31 chars + NUL), reject duplicates, take the first free slot and fill
a zeroed entry with `RAMDISK_FILE_USED | flags`. -/
def ramdisk_create (rd : ramdisk_t) (name : List Char) (fl : Nat) : ramdisk_t × Bool :=
  if ¬ rd.initialized = true then (rd, false)
  else if name.length = 0 ∨ 32 ≤ name.length then (rd, false)
  else if ramdisk_exists rd name then (rd, false)
  else
    match ramdisk_find_free_slot rd with
    | none => (rd, false)
    | some slot =>
      let f : ramdisk_file_t :=
        { name := name.take 31, size := 0, offset := 0, allocated := 0,
          flags := setBit0 fl, created := 0, modified := 0 }
      ({ rd with files := rd.files.set slot f,
                 file_count := (rd.file_count + 1) % 4294967296 }, true)

/-- `ramdisk_delete` (ramdisk.h lines 385-414): refuse readonly files, mark
the slot free (the arena span is not reclaimed). -/
def ramdisk_delete (rd : ramdisk_t) (name : List Char) : ramdisk_t × Bool :=
  if ¬ rd.initialized = true then (rd, false)
  else
    match ramdisk_find rd name with
    | none => (rd, false)
    | some idx =>
      let f := rd.files.getD idx default
      if f.flags / 4 % 2 = 1 then (rd, false)
      else
        ({ rd with files := rd.files.set idx { f with flags := 0, name := [] },
                   file_count := (rd.file_count + 4294967295) % 4294967296 }, true)

/-- Shared tail of `ramdisk_open`: the readonly check and the handle
setup (ramdisk.h lines 440-458). -/
def ramdisk_open_finish (rd : ramdisk_t) (idx : Nat) (write_mode : Bool) :
    ramdisk_t × ramdisk_handle_t :=
  let f := rd.files.getD idx default
  if write_mode ∧ f.flags / 4 % 2 = 1 then (rd, default)
  else
    (rd, { file_index := idx, position := 0, h_open := true,
           write_mode := write_mode, append_mode := false })

/-- `ramdisk_open` (ramdisk.h lines 419-459): look the name up, auto-create
on a write-mode miss, reject write-opening readonly files.  A failed open
leaves the handle in its memset-zero (closed) state. -/
def ramdisk_open (rd : ramdisk_t) (name : List Char) (write_mode : Bool) :
    ramdisk_t × ramdisk_handle_t :=
  if ¬ rd.initialized = true then (rd, default)
  else
    match ramdisk_find rd name with
    | some idx => ramdisk_open_finish rd idx write_mode
    | none =>
      if write_mode then
        let r := ramdisk_create rd name 0
        if r.2 then
          match ramdisk_find r.1 name with
          | some idx => ramdisk_open_finish r.1 idx write_mode
          | none => (r.1, default)
        else (r.1, default)
      else (rd, default)

/-- `ramdisk_open_append` (ramdisk.h lines 464-475). -/
def ramdisk_open_append (rd : ramdisk_t) (name : List Char) :
    ramdisk_t × ramdisk_handle_t :=
  let r := ramdisk_open rd name true
  if ¬ r.2.h_open = true then r
  else
    let f := r.1.files.getD r.2.file_index default
    (r.1, { r.2 with position := f.size, append_mode := true })

/-- `ramdisk_read` (ramdisk.h lines 491-517): clamp to the recorded size,
return the byte count and the bytes (as a function of the buffer index). -/
def ramdisk_read (rd : ramdisk_t) (h : ramdisk_handle_t) (size : Nat) :
    ramdisk_t × ramdisk_handle_t × Nat × (Nat → Nat) :=
  if ¬ h.h_open = true ∨ size = 0 then (rd, h, 0, fun _ => 0)
  else
    let f := rd.files.getD h.file_index default
    if f.size ≤ h.position then (rd, h, 0, fun _ => 0)
    else
      let avail := f.size - h.position
      let sz := if avail < size then avail else size
      let content : Nat → Nat := fun i => rd.data ((f.offset + h.position) % 4294967296 + i)
      (rd, { h with position := (h.position + sz) % 4294967296 }, sz, content)

/-- `rd_memcpy` (ramdisk.h lines 199-203): a forward byte-by-byte copy of
`n` bytes from `src` to `dst`, each byte read from the buffer as updated by
the copies before it — so overlapping spans with `src < dst < src + n`
repeat the leading bytes, exactly as `while (n--) *d++ = *s++;` does. -/
def rd_memcpy : (Nat → Nat) → Nat → Nat → Nat → (Nat → Nat)
  | d, _, _, 0 => d
  | d, dst, src, n + 1 =>
    rd_memcpy (fun a => if a = dst then d src else d a) (dst + 1) (src + 1) n

/-- The span size `ramdisk_write` allocates for a write ending at
`new_end`: `(new_end + 511) & ~511`, with a 4096-byte minimum
(ramdisk.h lines 534-538). -/
def roundedSpan (new_end : Nat) : Nat :=
  let n0 := (new_end + 511) % 4294967296 / 512 * 512
  if n0 < 4096 then 4096 else n0

/-- The unconditional tail of `ramdisk_write` (ramdisk.h lines 557-571):
copy the caller's bytes at `offset + position`, advance the position, and
extend the recorded size when the write went past it. -/
def ramdisk_write_commit (rd : ramdisk_t) (h : ramdisk_handle_t) (f : ramdisk_file_t)
    (buf : Nat → Nat) (size : Nat) : ramdisk_t × ramdisk_handle_t × Nat :=
  let base := (f.offset + h.position) % 4294967296
  let data' : Nat → Nat := fun a => if base ≤ a ∧ a < base + size then buf (a - base) else rd.data a
  let newpos := (h.position + size) % 4294967296
  let f' := if f.size < newpos then { f with size := newpos, modified := 0 }
            else { f with modified := 0 }
  ({ rd with data := data', files := rd.files.set h.file_index f' },
   { h with position := newpos }, size)

/-- `ramdisk_write` (ramdisk.h lines 522-572): when the write's end passes
the allocated span (or nothing is allocated yet), reserve a fresh
`roundedSpan` at the bump pointer, move the existing contents there, and
bump the pointer; then commit the caller's bytes. -/
def ramdisk_write (rd : ramdisk_t) (h : ramdisk_handle_t) (buf : Nat → Nat) (size : Nat) :
    ramdisk_t × ramdisk_handle_t × Nat :=
  if ¬ h.h_open = true ∨ ¬ h.write_mode = true ∨ size = 0 then (rd, h, 0)
  else
    let f := rd.files.getD h.file_index default
    let new_end := (h.position + size) % 4294967296
    if f.allocated = 0 ∨ f.allocated < new_end then
      let needed := roundedSpan new_end
      if rd.data_size < (rd.data_ptr + needed) % 4294967296 then (rd, h, 0)
      else
        let data1 : Nat → Nat :=
          if 0 < f.size ∧ 0 < f.allocated then
            rd_memcpy rd.data rd.data_ptr f.offset f.size
          else rd.data
        let f1 := { f with offset := rd.data_ptr, allocated := needed }
        let rd1 := { rd with
                       data := data1,
                       files := rd.files.set h.file_index f1,
                       data_ptr := (rd.data_ptr + needed) % 4294967296,
                       data_used := (rd.data_used + needed) % 4294967296 }
        ramdisk_write_commit rd1 h f1 buf size
    else
      ramdisk_write_commit rd h f buf size

/-- `ramdisk_seek` (ramdisk.h lines 635-647): read-mode handles may not
seek past the recorded size; write-mode handles seek anywhere. -/
def ramdisk_seek (rd : ramdisk_t) (h : ramdisk_handle_t) (pos : Nat) :
    ramdisk_handle_t × Bool :=
  if ¬ h.h_open = true then (h, false)
  else if ¬ h.write_mode = true ∧ (rd.files.getD h.file_index default).size < pos then
    (h, false)
  else ({ h with position := pos }, true)

/-- The clamped-at-zero target position of `ramdisk_seek_rel` (int64
arithmetic, then truncation to uint32). -/
def seekRelTarget (h : ramdisk_handle_t) (off : Int) : Nat :=
  let np : Int := (h.position : Int) + off
  (if np < 0 then 0 else np).toNat % 4294967296

/-- `ramdisk_seek_rel` (ramdisk.h lines 652-659). -/
def ramdisk_seek_rel (rd : ramdisk_t) (h : ramdisk_handle_t) (off : Int) :
    ramdisk_handle_t × Bool :=
  if ¬ h.h_open = true then (h, false)
  else ramdisk_seek rd h (seekRelTarget h off)

/-- `ramdisk_seek_end` (ramdisk.h lines 664-668). -/
def ramdisk_seek_end (rd : ramdisk_t) (h : ramdisk_handle_t) :
    ramdisk_handle_t × Bool :=
  if ¬ h.h_open = true then (h, false)
  else ({ h with position := (rd.files.getD h.file_index default).size }, true)

/-- `ramdisk_truncate` (ramdisk.h lines 697-705): set the recorded size to
the handle's current position — whatever that position is. -/
def ramdisk_truncate (rd : ramdisk_t) (h : ramdisk_handle_t) : ramdisk_t × Bool :=
  if ¬ h.h_open = true ∨ ¬ h.write_mode = true then (rd, false)
  else
    let f := rd.files.getD h.file_index default
    let f1 := { f with size := h.position, modified := 0 }
    ({ rd with files := rd.files.set h.file_index f1 }, true)

/-- `ramdisk_rename` (ramdisk.h lines 793-813) — note: it does not check
the readonly flag. -/
def ramdisk_rename (rd : ramdisk_t) (oldName newName : List Char) : ramdisk_t × Bool :=
  if ¬ rd.initialized = true then (rd, false)
  else if ramdisk_exists rd newName then (rd, false)
  else
    match ramdisk_find rd oldName with
    | none => (rd, false)
    | some idx =>
      let f := rd.files.getD idx default
      let f1 := { f with name := newName.take 31, modified := 0 }
      ({ rd with files := rd.files.set idx f1 }, true)

/-- `ramdisk_stat` (ramdisk.h lines 765-776): size and flags of a file. -/
def ramdisk_stat (rd : ramdisk_t) (name : List Char) : Option (Nat × Nat) :=
  match ramdisk_find rd name with
  | none => none
  | some idx => some ((rd.files.getD idx default).size, (rd.files.getD idx default).flags)

/-- The 512-byte chunk loop of `ramdisk_copy` (ramdisk.h lines 843-855).
Each non-exit iteration transfers at least one byte, so fuel
`remaining + 1` always reaches a real loop exit; the fuel-exhausted clause
returns the current state. -/
def ramdisk_copy_loop : Nat → ramdisk_t → ramdisk_handle_t → ramdisk_handle_t → Nat →
    ramdisk_t × ramdisk_handle_t × ramdisk_handle_t × Nat
  | 0, rd, hs, hd, remaining => (rd, hs, hd, remaining)
  | fuel + 1, rd, hs, hd, remaining =>
    if remaining = 0 then (rd, hs, hd, 0)
    else
      let chunk := if 512 < remaining then 512 else remaining
      let r := ramdisk_read rd hs chunk
      if r.2.2.1 = 0 then (r.1, r.2.1, hd, remaining)
      else
        let w := ramdisk_write r.1 hd r.2.2.2 r.2.2.1
        if ¬ w.2.2 = r.2.2.1 then (w.1, r.2.1, w.2.1, remaining)
        else ramdisk_copy_loop fuel w.1 r.2.1 w.2.1 (remaining - r.2.2.1)

/-- `ramdisk_copy` (ramdisk.h lines 818-867): stat the source, refuse an
existing destination, open source (read) and destination (write, created),
copy in 512-byte chunks, then transplant the source flags (keeping USED). -/
def ramdisk_copy (rd : ramdisk_t) (src dst : List Char) : ramdisk_t × Bool :=
  match ramdisk_stat rd src with
  | none => (rd, false)
  | some (size, fl) =>
    if ramdisk_exists rd dst then (rd, false)
    else
      let rs := ramdisk_open rd src false
      if ¬ rs.2.h_open = true then (rs.1, false)
      else
        let rdst := ramdisk_open rs.1 dst true
        if ¬ rdst.2.h_open = true then (rdst.1, false)
        else
          let lp := ramdisk_copy_loop (size + 1) rdst.1 rs.2 rdst.2 size
          let rd4 := match ramdisk_find lp.1 dst with
            | some di =>
              let f := lp.1.files.getD di default
              let f1 := { f with flags := setBit0 (fl / 2 * 2) }
              { lp.1 with files := lp.1.files.set di f1 }
            | none => lp.1
          (rd4, lp.2.2.2 = 0)

/-- A reachable-states world: the RAM disk plus every handle the caller
ever opened (handles address files by slot index, as the C handle's `file`
pointer does). -/
structure World where
  rd : ramdisk_t
  handles : List ramdisk_handle_t

/-- The public RAM-disk operations of claim C9.  `write`'s buffer is a byte
source, handle arguments are indices into the world's handle list. -/
inductive RdOp where
  | create (name : List Char) (fl : Nat)
  | openF (name : List Char) (write_mode : Bool)
  | openAppend (name : List Char)
  | write (i : Nat) (buf : Nat → Nat) (size : Nat)
  | seek (i : Nat) (pos : Nat)
  | seekRel (i : Nat) (off : Int)
  | seekEnd (i : Nat)
  | truncate (i : Nat)
  | delete (name : List Char)
  | rename (oldName newName : List Char)
  | copy (src dst : List Char)

/-- One public operation applied to the world.  Operations on out-of-range
handle indices are no-ops (the caller passed no such handle). -/
def stepWorld (w : World) : RdOp → World
  | .create n fl => { w with rd := (ramdisk_create w.rd n fl).1 }
  | .openF n wm =>
    let r := ramdisk_open w.rd n wm
    { rd := r.1, handles := w.handles ++ [r.2] }
  | .openAppend n =>
    let r := ramdisk_open_append w.rd n
    { rd := r.1, handles := w.handles ++ [r.2] }
  | .write i buf size =>
    if i < w.handles.length then
      let r := ramdisk_write w.rd (w.handles.getD i default) buf size
      { rd := r.1, handles := w.handles.set i r.2.1 }
    else w
  | .seek i pos =>
    if i < w.handles.length then
      let h1 := (ramdisk_seek w.rd (w.handles.getD i default) (pos % 4294967296)).1
      { w with handles := w.handles.set i h1 }
    else w
  | .seekRel i off =>
    if i < w.handles.length then
      let h1 := (ramdisk_seek_rel w.rd (w.handles.getD i default) off).1
      { w with handles := w.handles.set i h1 }
    else w
  | .seekEnd i =>
    if i < w.handles.length then
      let h1 := (ramdisk_seek_end w.rd (w.handles.getD i default)).1
      { w with handles := w.handles.set i h1 }
    else w
  | .truncate i =>
    if i < w.handles.length then
      { w with rd := (ramdisk_truncate w.rd (w.handles.getD i default)).1 }
    else w
  | .delete n => { w with rd := (ramdisk_delete w.rd n).1 }
  | .rename a b => { w with rd := (ramdisk_rename w.rd a b).1 }
  | .copy sN dN => { w with rd := (ramdisk_copy w.rd sN dN).1 }

/-- Side conditions of the amended claim C9: write lengths of at most 1 GiB,
absolute seeks within the arena, and truncation only at a position within
the file's allocated span. -/
def opOk (w : World) : RdOp → Prop
  | .write _ _ size => size ≤ 1073741824
  | .seek _ pos => pos % 4294967296 ≤ w.rd.data_size
  | .seekRel i off => seekRelTarget (w.handles.getD i default) off ≤ w.rd.data_size
  | .truncate i =>
    (w.handles.getD i default).position ≤
      (w.rd.files.getD (w.handles.getD i default).file_index default).allocated
  | _ => True

/-- Worlds reachable from a successful `ramdisk_init` of an arena of at most
1 GiB by operation sequences satisfying `opOk`. -/
inductive ReachableOk : World → Prop where
  | init (dataArea : Nat → Nat) (size : Nat) (rd0 : ramdisk_t) :
      size ≤ 1073741824 → ramdisk_init dataArea size = some rd0 →
      ReachableOk { rd := rd0, handles := [] }
  | step (w : World) (op : RdOp) : ReachableOk w → opOk w op → ReachableOk (stepWorld w op)

/-- The per-disk allocator invariant of claim C9 (strengthened to all 128
slots, live or free, since `ramdisk_delete` keeps the span fields). -/
def RdInv (rd : ramdisk_t) : Prop :=
  rd.files.length = 128 ∧
  rd.data_ptr ≤ rd.data_size ∧
  rd.data_size ≤ 1073741824 ∧
  ∀ i, i < 128 →
    (rd.files.getD i default).size ≤ (rd.files.getD i default).allocated ∧
    (rd.files.getD i default).offset + (rd.files.getD i default).allocated ≤ rd.data_ptr

/-- The per-handle invariant: the position stays inside the arena and the
slot index is in range. -/
def HInv (rd : ramdisk_t) (h : ramdisk_handle_t) : Prop :=
  h.position ≤ rd.data_size ∧ h.file_index < 128

/-- The whole-world invariant maintained by every `opOk` step. -/
def WorldInv (w : World) : Prop :=
  RdInv w.rd ∧ ∀ k, k < w.handles.length → HInv w.rd (w.handles.getD k default)

/-- A 64 KiB RAM disk, freshly initialized. -/
def rdEx : ramdisk_t := (ramdisk_init (fun _ => 0) 65536).getD default

/-- `rdEx` with "A" opened for writing (auto-created in slot 0). -/
def rdExOpen : ramdisk_t × ramdisk_handle_t := ramdisk_open rdEx "A".toList true

/-- Writing 4097 bytes at position 0 into the fresh file "A". -/
def c8Write : ramdisk_t × ramdisk_handle_t × Nat :=
  ramdisk_write rdExOpen.1 rdExOpen.2 (fun _ => 7) 4097

/-- The C9 trace: open "A" for writing, seek the write handle to 5000,
truncate — the live file's recorded size now exceeds its allocation. -/
def c9WorldBad : World :=
  stepWorld
    (stepWorld
      (stepWorld { rd := rdEx, handles := [] } (.openF "A".toList true))
      (.seek 0 5000))
    (.truncate 0)

end Ramdisk

namespace Fat12

theorem word16_lt (fat : Nat → Nat) (off : Nat) : word16 fat off < 65536 := by
  unfold word16
  have h1 : fat off % 256 < 256 := Nat.mod_lt _ (by omega)
  have h2 : fat (off + 1) % 256 < 256 := Nat.mod_lt _ (by omega)
  omega

theorem shift4_mod (value : Nat) : value * 16 % 65536 = value % 4096 * 16 := by
  have h := Nat.mul_mod_mul_right 16 value 4096
  simpa [Nat.mul_comm] using h

theorem wordAfter_lt (fat : Nat → Nat) (cluster value : Nat) :
    wordAfter fat cluster value < 65536 := by
  unfold wordAfter
  have hw := word16_lt fat (fatOffset cluster)
  have hv := shift4_mod value
  by_cases h : cluster % 2 = 1
  · rw [if_pos h]
    have : value % 4096 < 4096 := Nat.mod_lt _ (by omega)
    omega
  · rw [if_neg h]
    omega

theorem fat12_write_fat_apply_other (fat : Nat → Nat) (cluster value i : Nat)
    (h1 : i ≠ fatOffset cluster) (h2 : i ≠ fatOffset cluster + 1) :
    fat12_write_fat fat cluster value i = fat i := by
  unfold fat12_write_fat
  rw [if_neg h1, if_neg h2]

theorem word16_write_self (fat : Nat → Nat) (cluster value : Nat) :
    word16 (fat12_write_fat fat cluster value) (fatOffset cluster) =
      wordAfter fat cluster value := by
  unfold word16 fat12_write_fat
  rw [if_pos rfl, if_neg (by omega : fatOffset cluster + 1 ≠ fatOffset cluster), if_pos rfl]
  have h := wordAfter_lt fat cluster value
  generalize wordAfter fat cluster value = w at *
  omega

/-- Reading back the entry just written returns the value masked to 12 bits. -/
theorem fat12_read_fat_write_fat_same (fat : Nat → Nat) (cluster value : Nat) :
    fat12_read_fat (fat12_write_fat fat cluster value) cluster = value % 4096 := by
  unfold fat12_read_fat
  rw [word16_write_self]
  unfold wordAfter
  have hw := word16_lt fat (fatOffset cluster)
  have hv := shift4_mod value
  generalize word16 fat (fatOffset cluster) = w at *
  by_cases h : cluster % 2 = 1
  · rw [if_pos h, if_pos h]
    have : value % 4096 < 4096 := Nat.mod_lt _ (by omega)
    omega
  · rw [if_neg h, if_neg h]
    omega

theorem fatOffset_strictMono {m n : Nat} (h : m < n) : fatOffset m < fatOffset n := by
  unfold fatOffset
  omega

/-- Writing one FAT entry leaves every other entry (in particular each
neighbour sharing a byte with it) unchanged. -/
theorem fat12_read_fat_write_fat_other (fat : Nat → Nat) {m n : Nat} (value : Nat)
    (hmn : m ≠ n) :
    fat12_read_fat (fat12_write_fat fat n value) m = fat12_read_fat fat m := by
  have hoffm : fatOffset m = m + m / 2 := rfl
  have hoffn : fatOffset n = n + n / 2 := rfl
  by_cases h1 : fatOffset m = fatOffset n
  · exfalso
    rcases Nat.lt_or_ge m n with h | h
    · exact Nat.ne_of_lt (fatOffset_strictMono h) h1
    · exact Nat.ne_of_lt (fatOffset_strictMono (by omega : n < m)) h1.symm
  · by_cases h2 : fatOffset m = fatOffset n + 1
    · -- shared byte: `m = n + 1`, `n` even; entry `m` keeps the high nibble
      have hkey : m = n + 1 ∧ n % 2 = 0 := by rw [hoffm, hoffn] at h2; constructor <;> omega
      obtain ⟨hm1, hneven⟩ := hkey
      have hmodd : m % 2 = 1 := by omega
      simp only [fat12_read_fat, fat12_write_fat, wordAfter, word16]
      rw [h2]
      simp only [if_pos hmodd, if_neg (by omega : ¬ n % 2 = 1),
        if_neg (by omega : ¬ (fatOffset n + 1 = fatOffset n)), if_pos rfl,
        if_neg (by omega : ¬ (fatOffset n + 1 + 1 = fatOffset n)),
        if_neg (by omega : ¬ (fatOffset n + 1 + 1 = fatOffset n + 1)), ite_true]
      omega
    · by_cases h3 : fatOffset m + 1 = fatOffset n
      · -- shared byte: `n = m + 1`, `m` even; entry `m` keeps the low nibble
        have hkey : n = m + 1 ∧ m % 2 = 0 := by rw [hoffm, hoffn] at h3; constructor <;> omega
        obtain ⟨hn1, hmeven⟩ := hkey
        have hnodd : n % 2 = 1 := by omega
        simp only [fat12_read_fat, fat12_write_fat, wordAfter, word16]
        rw [← h3]
        simp only [if_neg (by omega : ¬ m % 2 = 1), if_pos hnodd,
          if_neg (by omega : ¬ (fatOffset m = fatOffset m + 1)),
          if_neg (by omega : ¬ (fatOffset m = fatOffset m + 1 + 1)), if_pos rfl, ite_true]
        have hv := shift4_mod value
        omega
      · -- byte ranges disjoint: both bytes of entry `m` are untouched
        unfold fat12_read_fat word16
        have hb0 : fat12_write_fat fat n value (fatOffset m) = fat (fatOffset m) :=
          fat12_write_fat_apply_other _ _ _ _ h1 h2
        have hb1 : fat12_write_fat fat n value (fatOffset m + 1) = fat (fatOffset m + 1) := by
          apply fat12_write_fat_apply_other
          · omega
          · omega
        rw [hb0, hb1]

/-- Claim C4: for a FAT12 filesystem with a FAT cache, a cluster index `n`
in `[2, total_clusters+2)` and a 12-bit value `v`, after
`fat12_write_fat(fs, n, v)` the entry `n` reads back as `v`, and every
other cluster index `m ≠ n` reads the same value as before the write (the
4 bits of the shared 16-bit word belonging to the neighbour entry are
preserved). -/
theorem fat_entry_write_read_c4 (fat : Nat → Nat) (total n v m : Nat)
    (hn : 2 ≤ n ∧ n < total + 2) (hv : v < 4096) (hm : m ≠ n) :
    fat12_read_fat (fat12_write_fat fat n v) n = v ∧
    fat12_read_fat (fat12_write_fat fat n v) m = fat12_read_fat fat m := by
  refine ⟨?_, fat12_read_fat_write_fat_other fat v hm⟩
  rw [fat12_read_fat_write_fat_same]
  omega

/-- Witness for C4 at a concrete cache, `n = 2`, `v = 5`, `m = 3`. -/
theorem fat_entry_write_read_c4_witness :
    ((2 ≤ 2 ∧ 2 < 4 + 2) ∧ 5 < 4096 ∧ 3 ≠ 2) ∧
    (fat12_read_fat (fat12_write_fat (fun _ => 0) 2 5) 2 = 5 ∧
     fat12_read_fat (fat12_write_fat (fun _ => 0) 2 5) 3 = fat12_read_fat (fun _ => 0) 3) :=
  ⟨by omega,
   fat_entry_write_read_c4 (fun _ => 0) 4 2 5 3 (by omega) (by omega) (by omega)⟩

theorem countP_le_of_imp {α : Type} (l : List α) (p q : α → Bool)
    (h : ∀ a ∈ l, q a = true → p a = true) : l.countP q ≤ l.countP p := by
  induction l with
  | nil => simp
  | cons a t ih =>
    have ht : t.countP q ≤ t.countP p := ih fun x hx => h x (List.mem_cons_of_mem a hx)
    have ha := h a (List.mem_cons_self a t)
    rw [List.countP_cons, List.countP_cons]
    by_cases hq : q a = true
    · rw [if_pos hq, if_pos (ha hq)]
      omega
    · rw [if_neg hq]
      by_cases hp : p a = true
      · rw [if_pos hp]; omega
      · rw [if_neg hp]; omega

theorem countP_lt_of_flip {α : Type} (l : List α) (p q : α → Bool) (c : α)
    (hc : c ∈ l) (hother : ∀ a, a ≠ c → q a = p a) (hp : p c = true) (hq : q c = false) :
    l.countP q < l.countP p := by
  induction l with
  | nil => cases hc
  | cons a t ih =>
    rw [List.countP_cons, List.countP_cons]
    by_cases hac : a = c
    · rw [if_pos (show p a = true by rw [hac]; exact hp),
        if_neg (show ¬ q a = true by rw [hac, hq]; simp)]
      have hle : t.countP q ≤ t.countP p := by
        apply countP_le_of_imp
        intro x _ hx
        by_cases hxc : x = c
        · rw [hxc, hq] at hx; cases hx
        · rw [← hother x hxc]; exact hx
      omega
    · rcases List.mem_cons.mp hc with h | h
      · exact absurd h.symm hac
      · have := ih h
        rw [hother a hac]
        omega

theorem fatNonzeroCount_write_zero_lt (fat : Nat → Nat) (c : Nat)
    (h2 : 2 ≤ c) (h4 : c < 4088) (hnz : fat12_read_fat fat c ≠ 0) :
    fatNonzeroCount (fat12_write_fat fat c 0) < fatNonzeroCount fat := by
  unfold fatNonzeroCount
  apply countP_lt_of_flip _ _ _ c
  · rw [List.mem_range']
    exact ⟨c - 2, by omega, by omega⟩
  · intro a hac
    rw [fat12_read_fat_write_fat_other fat 0 hac]
  · simpa using hnz
  · have h := fat12_read_fat_write_fat_same fat c 0
    simp [h]

theorem fat12_free_chain_run_isSome (fuel : Nat) :
    ∀ (fat : Nat → Nat) (c : Nat), fatNonzeroCount fat + 2 ≤ fuel →
      (fat12_free_chain_run fuel fat c).isSome := by
  induction fuel with
  | zero => intro fat c h; omega
  | succ f ih =>
    intro fat c h
    by_cases hc : 2 ≤ c ∧ c < 4088
    · simp only [fat12_free_chain_run, if_pos hc]
      by_cases hz : fat12_read_fat fat c = 0
      · rw [hz]
        obtain ⟨f', rfl⟩ : ∃ f', f = f' + 1 := ⟨f - 1, by omega⟩
        simp only [fat12_free_chain_run]
        rw [if_neg (by omega : ¬ (2 ≤ 0 ∧ 0 < 4088))]
        simp
      · have hdec := fatNonzeroCount_write_zero_lt fat c hc.1 hc.2 hz
        have hih := ih (fat12_write_fat fat c 0) (fat12_read_fat fat c) (by omega)
        cases hrun : fat12_free_chain_run f (fat12_write_fat fat c 0) (fat12_read_fat fat c) with
        | none => rw [hrun] at hih; simp at hih
        | some r => simp
    · simp only [fat12_free_chain_run, if_neg hc]
      simp

theorem fat12_free_chain_run_preserves_zero (fuel : Nat) :
    ∀ (fat : Nat → Nat) (c x : Nat) (f : Nat → Nat) (vs : List Nat),
      fat12_read_fat fat x = 0 →
      fat12_free_chain_run fuel fat c = some (f, vs) → fat12_read_fat f x = 0 := by
  induction fuel with
  | zero => intro fat c x f vs hx h; simp [fat12_free_chain_run] at h
  | succ n ih =>
    intro fat c x f vs hx h
    simp only [fat12_free_chain_run] at h
    by_cases hc : 2 ≤ c ∧ c < 4088
    · rw [if_pos hc] at h
      cases hrun : fat12_free_chain_run n (fat12_write_fat fat c 0) (fat12_read_fat fat c) with
      | none => rw [hrun] at h; cases h
      | some r =>
        rw [hrun] at h
        obtain ⟨r1, r2⟩ := r
        have hfx : fat12_read_fat (fat12_write_fat fat c 0) x = 0 := by
          by_cases hxc : x = c
          · subst hxc
            rw [fat12_read_fat_write_fat_same]
          · rw [fat12_read_fat_write_fat_other fat 0 hxc]
            exact hx
        have heq : r1 = f := by
          injection h with h'
          exact congrArg Prod.fst h'
        exact heq ▸ ih _ _ x r1 r2 hfx hrun
    · rw [if_neg hc] at h
      injection h with h'
      have heq : fat = f := congrArg Prod.fst h'
      exact heq ▸ hx

theorem fat12_free_chain_run_visited_zero (fuel : Nat) :
    ∀ (fat : Nat → Nat) (c : Nat) (f : Nat → Nat) (vs : List Nat),
      fat12_free_chain_run fuel fat c = some (f, vs) →
      ∀ x ∈ vs, fat12_read_fat f x = 0 := by
  induction fuel with
  | zero => intro fat c f vs h; simp [fat12_free_chain_run] at h
  | succ n ih =>
    intro fat c f vs h
    simp only [fat12_free_chain_run] at h
    by_cases hc : 2 ≤ c ∧ c < 4088
    · rw [if_pos hc] at h
      cases hrun : fat12_free_chain_run n (fat12_write_fat fat c 0) (fat12_read_fat fat c) with
      | none => rw [hrun] at h; cases h
      | some r =>
        rw [hrun] at h
        obtain ⟨r1, r2⟩ := r
        injection h with h'
        have hf : r1 = f := congrArg Prod.fst h'
        have hvs : c :: r2 = vs := congrArg Prod.snd h'
        intro x hxvs
        rw [← hvs] at hxvs
        rcases List.mem_cons.mp hxvs with hxc | hxt
        · subst hxc
          have h0 : fat12_read_fat (fat12_write_fat fat x 0) x = 0 := by
            rw [fat12_read_fat_write_fat_same]
          exact hf ▸ fat12_free_chain_run_preserves_zero n _ _ x r1 r2 h0 hrun
        · exact hf ▸ ih _ _ r1 r2 hrun x hxt
    · rw [if_neg hc] at h
      injection h with h'
      have hvs : ([] : List Nat) = vs := congrArg Prod.snd h'
      intro x hxvs
      rw [← hvs] at hxvs
      cases hxvs

theorem fat12_free_chain_run_length (fuel : Nat) :
    ∀ (fat : Nat → Nat) (c : Nat) (f : Nat → Nat) (vs : List Nat),
      fat12_free_chain_run fuel fat c = some (f, vs) →
      vs.length ≤ fatNonzeroCount fat + 1 := by
  induction fuel with
  | zero => intro fat c f vs h; simp [fat12_free_chain_run] at h
  | succ n ih =>
    intro fat c f vs h
    simp only [fat12_free_chain_run] at h
    by_cases hc : 2 ≤ c ∧ c < 4088
    · rw [if_pos hc] at h
      cases hrun : fat12_free_chain_run n (fat12_write_fat fat c 0) (fat12_read_fat fat c) with
      | none => rw [hrun] at h; cases h
      | some r =>
        rw [hrun] at h
        obtain ⟨r1, r2⟩ := r
        injection h with h'
        have hvs : c :: r2 = vs := congrArg Prod.snd h'
        by_cases hz : fat12_read_fat fat c = 0
        · -- the next cluster is 0, so the inner run exits at once: r2 = []
          rw [hz] at hrun
          obtain ⟨n', rfl⟩ : ∃ n', n = n' + 1 := by
            cases n with
            | zero => simp [fat12_free_chain_run] at hrun
            | succ k => exact ⟨k, rfl⟩
          simp only [fat12_free_chain_run] at hrun
          rw [if_neg (by omega : ¬ (2 ≤ 0 ∧ 0 < 4088))] at hrun
          injection hrun with hrun'
          have hr2 : ([] : List Nat) = r2 := congrArg Prod.snd hrun'
          rw [← hvs, ← hr2]
          simp
        · have hdec := fatNonzeroCount_write_zero_lt fat c hc.1 hc.2 hz
          have := ih _ _ r1 r2 hrun
          rw [← hvs]
          simp only [List.length_cons]
          omega
    · rw [if_neg hc] at h
      injection h with h'
      have hvs : ([] : List Nat) = vs := congrArg Prod.snd h'
      rw [← hvs]
      simp

/-- Claim C5 (amended): with a FAT cache, `fat12_free_chain` always
terminates: fuel `4088` always completes the loop, the loop makes at most
`fatNonzeroCount fat + 1` iterations — which is at most `4087`, though it
can exceed `total_clusters` on a corrupt FAT — and on termination every
cluster the loop visited has its FAT entry equal to `0x000` (free). -/
theorem free_chain_terminates_frees_c5 (fat : Nat → Nat) (cluster : Nat) :
    (fat12_free_chain_run 4088 fat cluster).isSome ∧
    ∀ (f : Nat → Nat) (vs : List Nat),
      fat12_free_chain_run 4088 fat cluster = some (f, vs) →
      vs.length ≤ fatNonzeroCount fat + 1 ∧ vs.length ≤ 4087 ∧
      ∀ x ∈ vs, fat12_read_fat f x = 0 := by
  constructor
  · apply fat12_free_chain_run_isSome
    have := List.countP_le_length (l := List.range' 2 4086)
      (p := fun c => fat12_read_fat fat c != 0)
    unfold fatNonzeroCount
    simp only [List.length_range'] at this
    omega
  · intro f vs h
    have hlen := fat12_free_chain_run_length 4088 fat cluster f vs h
    have hcnt : fatNonzeroCount fat ≤ 4086 := by
      have := List.countP_le_length (l := List.range' 2 4086)
        (p := fun c => fat12_read_fat fat c != 0)
      unfold fatNonzeroCount
      simp only [List.length_range'] at this
      omega
    exact ⟨hlen, by omega, fat12_free_chain_run_visited_zero 4088 fat cluster f vs h⟩

/-- Witness for C5 at the zero FAT, start cluster 2 (the loop visits `[2]`
and exits). -/
theorem free_chain_terminates_frees_c5_witness :
    (fat12_free_chain_run 4088 (fun _ => 0) 2).isSome ∧
    ([2].length ≤ fatNonzeroCount (fun _ => 0) + 1 ∧ [2].length ≤ 4087 ∧
      ∀ x ∈ [2], fat12_read_fat (fat12_write_fat (fun _ => 0) 2 0) x = 0) :=
  ⟨(free_chain_terminates_frees_c5 (fun _ => 0) 2).1,
   (free_chain_terminates_frees_c5 (fun _ => 0) 2).2
     (fat12_write_fat (fun _ => 0) 2 0) [2] rfl⟩

/-- Counterexample to C5 as stated: on the mounted tiny volume
(`total_clusters = 5`) whose FAT holds the chain `2 → 3 → ⋯ → 10 → EOF`
(a state reachable by 9 `fat12_write_fat` calls), `fat12_free_chain`
starting at cluster 2 makes 9 link-following steps — more than
`total_clusters`. -/
theorem free_chain_steps_c5_counterexample :
    (fat12_free_chain_run 4088 longChainFat 2).isSome ∧
    tinyFs.total_clusters = 5 ∧ longChainSteps = 9 ∧
    ¬ (longChainSteps ≤ tinyFs.total_clusters) := by
  decide

theorem syncCopy_apply_inside (cache : Nat → Nat) (base : Nat) (n : Nat) (d : Disk)
    (i j : Nat) (hi : i < n) :
    syncCopy cache base n d (base + i) j = cache (i * 512 + j) := by
  induction n with
  | zero => omega
  | succ k ih =>
    simp only [syncCopy, writeSector]
    by_cases hik : i = k
    · rw [if_pos (show base + i = base + k by omega)]
      rw [hik]
    · rw [if_neg (show ¬ base + i = base + k by omega)]
      exact ih (by omega)

theorem syncCopy_apply_outside (cache : Nat → Nat) (base : Nat) (n : Nat) (d : Disk)
    (s j : Nat) (hs : ∀ i, i < n → s ≠ base + i) :
    syncCopy cache base n d s j = d s j := by
  induction n with
  | zero => rfl
  | succ k ih =>
    simp only [syncCopy, writeSector]
    rw [if_neg (hs k (by omega))]
    exact ih fun i hi => hs i (by omega)

theorem syncFats_apply (fs : Fat12Fs) (d : Disk) (nf : Nat) :
    ∀ f, f < nf → ∀ i, i < fs.fat_size_16 → ∀ j,
      syncFats fs nf d (fs.fat_start + f * fs.fat_size_16 + i) j =
        fs.fat_cache (i * 512 + j) := by
  induction nf with
  | zero => intro f hf; omega
  | succ k ih =>
    intro f hf i hi j
    simp only [syncFats]
    by_cases hfk : f = k
    · subst hfk
      exact syncCopy_apply_inside _ _ _ _ i j hi
    · rw [syncCopy_apply_outside]
      · exact ih f (by omega) i hi j
      · intro i' hi'
        have h1 : (f + 1) * fs.fat_size_16 ≤ k * fs.fat_size_16 :=
          Nat.mul_le_mul_right _ (by omega)
        have h2 : (f + 1) * fs.fat_size_16 = f * fs.fat_size_16 + fs.fat_size_16 := by
          ring
        omega

/-- Claim C6 (amended): after `fat12_sync` on a mounted filesystem with a
FAT cache that is dirty (at least one FAT mutation happened since mount or
since the previous sync), every one of the `num_fats` on-disk FAT copies is
byte-identical to the cache — and hence all copies are identical to each
other.  Without the dirtiness premise `fat12_sync` is a no-op and a volume
mounted with differing on-disk copies keeps them differing
(`sync_no_op_c6_counterexample`). -/
theorem sync_fat_copies_identical_c6 (fs : Fat12Fs) (disk : Disk)
    (hdirty : fs.fat_dirty = true) :
    (∀ f, f < fs.num_fats → ∀ i, i < fs.fat_size_16 → ∀ j, j < 512 →
      (fat12_sync fs disk).2 (fs.fat_start + f * fs.fat_size_16 + i) j =
        fs.fat_cache (i * 512 + j)) ∧
    (∀ f1 f2, f1 < fs.num_fats → f2 < fs.num_fats →
      ∀ i, i < fs.fat_size_16 → ∀ j, j < 512 →
        (fat12_sync fs disk).2 (fs.fat_start + f1 * fs.fat_size_16 + i) j =
          (fat12_sync fs disk).2 (fs.fat_start + f2 * fs.fat_size_16 + i) j) := by
  have hs : (fat12_sync fs disk).2 = syncFats fs fs.num_fats disk := by
    unfold fat12_sync
    rw [if_neg (by simp [hdirty])]
  constructor
  · intro f hf i hi j _
    rw [hs]
    exact syncFats_apply fs disk fs.num_fats f hf i hi j
  · intro f1 f2 h1 h2 i hi j _
    rw [hs, syncFats_apply fs disk fs.num_fats f1 h1 i hi j,
        syncFats_apply fs disk fs.num_fats f2 h2 i hi j]

/-- Witness for C6 on the dirty two-FAT volume, copy 0, byte 0. -/
theorem sync_fat_copies_identical_c6_witness :
    twoFatFsDirty.fat_dirty = true ∧
    ((fat12_sync twoFatFsDirty twoFatDisk).2
        (twoFatFsDirty.fat_start + 0 * twoFatFsDirty.fat_size_16 + 0) 0 =
      twoFatFsDirty.fat_cache (0 * 512 + 0)) :=
  ⟨rfl,
   (sync_fat_copies_identical_c6 twoFatFsDirty twoFatDisk rfl).1 0 (by decide) 0
     (by decide) 0 (by decide)⟩

/-- Counterexample to C6 as stated: on the freshly mounted two-FAT volume
(no FAT mutation yet, `fat_dirty = false`) whose on-disk copies differ,
`fat12_sync` returns without writing anything, and the two FAT copies still
differ at byte 0 of their first sectors. -/
theorem sync_no_op_c6_counterexample :
    (fat12_mount twoFatDisk (fun _ => 0)).isSome ∧
    twoFatFs.mounted = true ∧ twoFatFs.num_fats = 2 ∧
    ¬ ((fat12_sync twoFatFs twoFatDisk).2
          (twoFatFs.fat_start + 0 * twoFatFs.fat_size_16 + 0) 0 =
       (fat12_sync twoFatFs twoFatDisk).2
          (twoFatFs.fat_start + 1 * twoFatFs.fat_size_16 + 0) 0) := by
  decide

end Fat12

namespace Vfs

theorem copyComp_fst_le : ∀ (p b : List Char), (copyComp p b).1.length ≤ p.length := by
  intro p
  induction p with
  | nil => intro b; simp [copyComp]
  | cons c rest ih =>
    intro b
    simp only [copyComp]
    by_cases h1 : c = '/'
    · rw [if_pos h1]
    · rw [if_neg h1]
      by_cases h2 : 255 ≤ b.length
      · rw [if_pos h2]
      · rw [if_neg h2]
        have := ih (b ++ [c])
        simp only [List.length_cons]
        omega

theorem copyComp_snd_head (p : List Char) : ∀ (b : List Char), b.head? = some '/' →
    (copyComp p b).2.head? = some '/' := by
  induction p with
  | nil => intro b hb; simpa [copyComp] using hb
  | cons c rest ih =>
    intro b hb
    simp only [copyComp]
    by_cases h1 : c = '/'
    · rw [if_pos h1]; exact hb
    · rw [if_neg h1]
      by_cases h2 : 255 ≤ b.length
      · rw [if_pos h2]; exact hb
      · rw [if_neg h2]
        apply ih
        cases b with
        | nil => cases hb
        | cons x t => simpa using hb

theorem dropWhile_getLast_slash : ∀ (r : List Char), r.getLast? = some '/' →
    (r.dropWhile (fun c => c != '/')).getLast? = some '/' := by
  intro r
  induction r with
  | nil => intro h; cases h
  | cons a t ih =>
    intro h
    rw [List.dropWhile_cons]
    by_cases ha : a = '/'
    · rw [if_neg (by simp [ha])]
      exact h
    · cases t with
      | nil => simp at h; exact absurd h ha
      | cons b u =>
        rw [if_pos (by simp [ha])]
        apply ih
        rw [List.getLast?_cons_cons] at h
        exact h

theorem stripTailComp_head (buf : List Char) (h : buf.head? = some '/') :
    (stripTailComp buf).head? = some '/' := by
  unfold stripTailComp
  rw [List.head?_reverse]
  apply dropWhile_getLast_slash
  rw [List.getLast?_reverse]
  exact h

theorem popComponent_head (buf : List Char) (h : buf.head? = some '/') :
    (popComponent buf).head? = some '/' := by
  unfold popComponent
  by_cases hl : 1 < buf.length
  · rw [if_pos hl]
    apply stripTailComp_head
    cases buf with
    | nil => cases h
    | cons a t =>
      cases t with
      | nil => simp at hl
      | cons b u =>
        rw [List.dropLast_cons₂]
        simpa using h
  · rw [if_neg hl]
    exact h

theorem normLoopF_head : ∀ (fuel : Nat) (path buf : List Char),
    path.length < fuel →
    (buf.head? = some '/' ∨ (buf = [] ∧ path.head? = some '/')) →
    (normLoopF fuel path buf).head? = some '/' := by
  intro fuel
  induction fuel with
  | zero => intro path buf hf; omega
  | succ f ih =>
    intro path buf hf h
    cases path with
    | nil =>
      rcases h with h | ⟨_, h⟩
      · exact h
      · cases h
    | cons c rest =>
      simp only [normLoopF]
      have hflen : rest.length < f := by simp at hf; omega
      by_cases h255 : 255 ≤ buf.length
      · rw [if_pos h255]
        rcases h with h | ⟨hb, _⟩
        · exact h
        · rw [hb] at h255; simp at h255
      · rw [if_neg h255]
        by_cases hc : c = '/'
        · rw [if_pos hc]
          apply ih _ _ hflen
          left
          by_cases hcond : buf.length = 0 ∨ ¬ buf.getLast? = some '/'
          · rw [if_pos hcond]
            rcases h with h | ⟨hb, _⟩
            · cases buf with
              | nil => cases h
              | cons x t => simpa using h
            · rw [hb]; rfl
          · rw [if_neg hcond]
            rcases h with h | ⟨hb, _⟩
            · exact h
            · rw [hb] at hcond; simp at hcond
        · -- c ≠ '/': if buf = [] then path.head = '/' gives contradiction
          have hbuf : buf.head? = some '/' := by
            rcases h with h | ⟨_, hph⟩
            · exact h
            · exact absurd (by simpa using hph) hc
          rw [if_neg hc]
          by_cases hdot : c = '.' ∧ (rest.head? = some '/' ∨ rest = [])
          · rw [if_pos hdot]
            have : (dropOneSlash rest).length ≤ rest.length := by
              unfold dropOneSlash
              cases rest with
              | nil => simp
              | cons a t =>
                dsimp only
                split
                · simp
                · simp
            exact ih _ _ (by omega) (Or.inl hbuf)
          · rw [if_neg hdot]
            by_cases hdd : c = '.' ∧ rest.head? = some '.' ∧
                (rest.tail.head? = some '/' ∨ rest.tail = [])
            · rw [if_pos hdd]
              have h1 : (dropOneSlash rest.tail).length ≤ rest.tail.length := by
                unfold dropOneSlash
                cases rest.tail with
                | nil => simp
                | cons a t =>
                  dsimp only
                  split
                  · simp
                  · simp
              have h2 : rest.tail.length ≤ rest.length := by
                cases rest <;> simp
              exact ih _ _ (by omega) (Or.inl (popComponent_head buf hbuf))
            · rw [if_neg hdd]
              have h1 : (copyComp rest (buf ++ [c])).1.length ≤ rest.length :=
                copyComp_fst_le rest (buf ++ [c])
              have h2 : (copyComp (c :: rest) buf).1 = (copyComp rest (buf ++ [c])).1 := by
                simp only [copyComp]
                rw [if_neg hc, if_neg h255]
              have h3 : (copyComp (c :: rest) buf).1.length =
                  (copyComp rest (buf ++ [c])).1.length := by rw [h2]
              apply ih _ _ (by omega)
              exact Or.inl (copyComp_snd_head _ _ hbuf)

theorem norm_abs_head (path cwd : List Char)
    (h : path.head? = some '/' ∨ cwd.head? = some '/') :
    (vfs_normalize_path path cwd).head? = some '/' := by
  unfold vfs_normalize_path
  by_cases hp : path.head? = some '/'
  · rw [if_pos hp]
    have hh := normLoopF_head (path.length + 1) path [] (by omega) (Or.inr ⟨rfl, hp⟩)
    by_cases hz : (normLoopF (path.length + 1) path []).length = 0
    · simp only [if_pos hz]; rfl
    · simp only [if_neg hz]; exact hh
  · rw [if_neg hp]
    have hcwd : cwd.head? = some '/' := by tauto
    have hbuf : (if 0 < cwd.length ∧ ¬ cwd.getLast? = some '/' then cwd ++ ['/'] else cwd).head? =
        some '/' := by
      by_cases hcnd : 0 < cwd.length ∧ ¬ cwd.getLast? = some '/'
      · rw [if_pos hcnd]
        cases cwd with
        | nil => cases hcwd
        | cons x t => simpa using hcwd
      · rw [if_neg hcnd]; exact hcwd
    have hh := normLoopF_head (path.length + 1) path _ (by omega) (Or.inl hbuf)
    by_cases hz : (normLoopF (path.length + 1) path
        (if 0 < cwd.length ∧ ¬ cwd.getLast? = some '/' then cwd ++ ['/'] else cwd)).length = 0
    · simp only [if_pos hz]; rfl
    · simp only [if_neg hz]; exact hh

/-- Counterexample to C2 as stated: `vfs_normalize_path` keeps a trailing
slash coming from the input (or from the cwd seeding), so the first and
third spec examples fail: `normalize("/a/b/./../c/", "/")` is "/a/c/", not
"/a/c", and `normalize("", "/a")` is "/a/", not "/a". -/
theorem normalize_path_c2_counterexample :
    vfs_normalize_path "/a/b/./../c/".toList "/".toList = "/a/c/".toList ∧
    ¬ (vfs_normalize_path "/a/b/./../c/".toList "/".toList = "/a/c".toList) ∧
    vfs_normalize_path "".toList "/a".toList = "/a/".toList ∧
    ¬ (vfs_normalize_path "".toList "/a".toList = "/a".toList) := by
  decide

/-- Claim C2 (amended): `vfs_normalize_path("/a/b/./../c/", cwd="/")`
yields "/a/c/", `vfs_normalize_path("../x", cwd="/a/b")` yields "/a/x",
and `vfs_normalize_path("", cwd="/a")` yields "/a/" — the code keeps a
trailing slash from the input or from the cwd seeding instead of trimming
it; and for every input path and cwd of which at least one begins with
'/', the result begins with '/'. -/
theorem normalize_path_c2 :
    vfs_normalize_path "/a/b/./../c/".toList "/".toList = "/a/c/".toList ∧
    vfs_normalize_path "../x".toList "/a/b".toList = "/a/x".toList ∧
    vfs_normalize_path "".toList "/a".toList = "/a/".toList ∧
    ∀ (path cwd : List Char), path.head? = some '/' ∨ cwd.head? = some '/' →
      (vfs_normalize_path path cwd).head? = some '/' :=
  ⟨by decide, by decide, by decide, norm_abs_head⟩

/-- Witness for C2's universal part at path "/x", cwd "". -/
theorem normalize_path_c2_witness :
    ("/x".toList.head? = some '/' ∨ "".toList.head? = some '/') ∧
    (vfs_normalize_path "/x".toList "".toList).head? = some '/' :=
  ⟨Or.inl (by decide), normalize_path_c2.2.2.2 "/x".toList "".toList (Or.inl (by decide))⟩


/-- Claim C3 (code bug evaluated): `vfs_find_mount` iterates only
`i < mount_count`, but `vfs_unmount` leaves holes in the mounts array, so a
live mount can sit at an index `≥ mount_count` and be skipped.  After
mounting "/" (slot 0) and "/a" (slot 1) and unmounting "/", slot 1 is still
a live mount whose path "/a" is the longest (and only) prefix of "/a/f",
yet `vfs_find_mount` returns the root-mount fallback, which is NULL. -/
theorem find_mount_skips_live_mount_c3 :
    (c3State.mounts.getD 1 default).mounted = true ∧
    (c3State.mounts.getD 1 default).path = "/a".toList ∧
    vfs_strncmp "/a/f".toList "/a".toList ("/a".toList.length) = 0 ∧
    c3State.mount_count = 1 ∧
    vfs_find_mount c3State "/a/f".toList = none := by
  decide

/-- Claim C10 (amended): `vfs_write` never consults the handle's open
flags — for every open handle on a present, non-readonly mount whose
operation table provides `write` (in particular a handle opened with only
`VFS_O_RDONLY`), the call is forwarded verbatim to the filesystem write
operation; and `vfs_write` returns `-1` only when the handle is closed,
the mount lacks a write operation, the mount is readonly, or the
filesystem's write operation itself returned `-1` (which the registered
FAT12 operation does when the handle has no filesystem-private state). -/
theorem vfs_write_c10 (w : VfsWFile → List Nat → Nat → Int) (buf : List Nat) (size : Nat) :
    (∀ (file : VfsWFile) (m : VfsWMount), file.f_open = true →
        m.ops_write_present = true → m.readonly = false →
        vfs_write file (some m) w buf size = w file buf size) ∧
    (∀ (file : VfsWFile) (m : VfsWMount),
        vfs_write file (some m) w buf size = -1 →
        file.f_open = false ∨ m.ops_write_present = false ∨ m.readonly = true ∨
          w file buf size = -1) := by
  constructor
  · intro file m h1 h2 h3
    simp [vfs_write, h1, h2, h3]
  · intro file m h
    simp only [vfs_write] at h
    by_cases h1 : file.f_open = true
    · simp only [h1, not_true, if_false, ite_false] at h
      by_cases h2 : m.ops_write_present = true
      · simp only [h2, not_true, if_false, ite_false] at h
        by_cases h3 : m.readonly = true
        · right; right; left; exact h3
        · simp only [h3, if_false, ite_false] at h
          right; right; right
          simpa using h
      · right; left; simpa using h2
    · left; simpa using h1

/-- Witness for C10: a read-only-flagged (`flags = VFS_O_RDONLY = 1`) open
handle on a writable mount is written through. -/
theorem vfs_write_c10_witness :
    (c10FileOk.f_open = true ∧ c10Mount.ops_write_present = true ∧
      c10Mount.readonly = false ∧ c10FileOk.flags = 1) ∧
    vfs_write c10FileOk (some c10Mount) (fat12_vfs_write_guard 7) [] 4 =
      fat12_vfs_write_guard 7 c10FileOk [] 4 :=
  ⟨⟨rfl, rfl, rfl, rfl⟩, (vfs_write_c10 (fat12_vfs_write_guard 7) [] 4).1 c10FileOk c10Mount rfl rfl rfl⟩

/-- Counterexample to C10 as stated: an open handle on a writable mount
whose write operation is present can still get `-1` — the forwarded
filesystem operation itself may return `-1` (here: the FAT12 write
operation with the handle's `fs_data` unset), so "`-1` only when closed /
no write op / readonly" is not exhaustive. -/
theorem vfs_write_c10_counterexample :
    c10File.f_open = true ∧ c10Mount.ops_write_present = true ∧
    c10Mount.readonly = false ∧
    vfs_write c10File (some c10Mount) (fat12_vfs_write_guard 0) [] 4 = -1 := by
  decide

end Vfs

namespace Ramdisk

theorem getD_set_self {α : Type} (l : List α) (i : Nat) (a d : α)
    (h : i < l.length) : (l.set i a).getD i d = a := by
  simp [List.getD_eq_getElem?_getD, List.getElem?_set_self, h]

theorem getD_set_ne {α : Type} (l : List α) (i j : Nat) (a d : α)
    (h : i ≠ j) : (l.set i a).getD j d = l.getD j d := by
  simp [List.getD_eq_getElem?_getD, List.getElem?_set_ne, h]

theorem roundedSpan_ge (n : Nat) (h : n ≤ 2147483648) : n ≤ roundedSpan n := by
  have h1 : (n + 511) % 4294967296 = n + 511 := Nat.mod_eq_of_lt (by omega)
  simp only [roundedSpan, h1]
  split <;> omega

theorem roundedSpan_le (n : Nat) (h : n ≤ 2147483648) : roundedSpan n ≤ 2147484160 := by
  have h1 : (n + 511) % 4294967296 = n + 511 := Nat.mod_eq_of_lt (by omega)
  simp only [roundedSpan, h1]
  split <;> omega

theorem hInv_transport (rd rd2 : ramdisk_t) (h : ramdisk_handle_t)
    (hds : rd2.data_size = rd.data_size) (hh : HInv rd h) : HInv rd2 h :=
  ⟨hds ▸ hh.1, hh.2⟩

theorem rdInv_set_slot (rd rd2 : ramdisk_t) (idx : Nat) (f1 : ramdisk_file_t)
    (hfiles : rd2.files = rd.files.set idx f1)
    (hdp2 : rd2.data_ptr = rd.data_ptr) (hds2 : rd2.data_size = rd.data_size)
    (h : RdInv rd)
    (hf : f1.size ≤ f1.allocated ∧ f1.offset + f1.allocated ≤ rd.data_ptr) :
    RdInv rd2 := by
  obtain ⟨hlen, hdp, hds, hslots⟩ := h
  rw [RdInv, hfiles, hdp2, hds2]
  by_cases hidx : idx < 128
  · refine ⟨by simpa using hlen, hdp, hds, fun i hi => ?_⟩
    by_cases hie : idx = i
    · subst hie
      rw [getD_set_self rd.files idx f1 default (by omega)]
      exact hf
    · rw [getD_set_ne rd.files idx i f1 default hie]
      exact hslots i hi
  · rw [List.set_eq_of_length_le (by omega)]
    exact ⟨hlen, hdp, hds, hslots⟩

theorem find_lt_128 (rd : ramdisk_t) (name : List Char) (idx : Nat)
    (h : ramdisk_find rd name = some idx) : idx < 128 := by
  unfold ramdisk_find at h
  split at h
  · exact absurd h (by simp)
  · exact List.mem_range.mp (List.mem_of_find?_eq_some h)

theorem free_slot_lt_128 (rd : ramdisk_t) (idx : Nat)
    (h : ramdisk_find_free_slot rd = some idx) : idx < 128 :=
  List.mem_range.mp (List.mem_of_find?_eq_some h)

theorem ramdisk_init_inv (dataArea : Nat → Nat) (size : Nat) (rd0 : ramdisk_t)
    (hle : size ≤ 1073741824) (hinit : ramdisk_init dataArea size = some rd0) :
    RdInv rd0 := by
  unfold ramdisk_init at hinit
  split at hinit
  · exact absurd hinit (by simp)
  · cases hinit
    refine ⟨by simp, Nat.zero_le _, hle, fun i hi => ?_⟩
    have hrep : (List.replicate 128 (default : ramdisk_file_t)).getD i default = default := by
      rw [List.getD_eq_getElem?_getD, List.getElem?_replicate, if_pos hi]
      rfl
    rw [hrep]
    exact ⟨Nat.le.refl, Nat.le.refl⟩

theorem ramdisk_create_inv (rd : ramdisk_t) (n : List Char) (fl : Nat) (h : RdInv rd) :
    RdInv (ramdisk_create rd n fl).1 ∧ (ramdisk_create rd n fl).1.data_size = rd.data_size := by
  simp only [ramdisk_create]
  split
  · exact ⟨h, rfl⟩
  split
  · exact ⟨h, rfl⟩
  split
  · exact ⟨h, rfl⟩
  split
  · exact ⟨h, rfl⟩
  · exact ⟨rdInv_set_slot rd _ _ _ rfl rfl rfl h ⟨Nat.le.refl, Nat.zero_le _⟩, rfl⟩

theorem ramdisk_delete_inv (rd : ramdisk_t) (n : List Char) (h : RdInv rd) :
    RdInv (ramdisk_delete rd n).1 ∧ (ramdisk_delete rd n).1.data_size = rd.data_size := by
  simp only [ramdisk_delete]
  split
  · exact ⟨h, rfl⟩
  split
  · exact ⟨h, rfl⟩
  next idx hfind =>
    split
    · exact ⟨h, rfl⟩
    · exact ⟨rdInv_set_slot rd _ idx _ rfl rfl rfl h (h.2.2.2 idx (find_lt_128 rd n idx hfind)), rfl⟩

theorem ramdisk_rename_inv (rd : ramdisk_t) (a b : List Char) (h : RdInv rd) :
    RdInv (ramdisk_rename rd a b).1 ∧ (ramdisk_rename rd a b).1.data_size = rd.data_size := by
  simp only [ramdisk_rename]
  split
  · exact ⟨h, rfl⟩
  split
  · exact ⟨h, rfl⟩
  split
  · exact ⟨h, rfl⟩
  next idx hfind =>
    exact ⟨rdInv_set_slot rd _ idx _ rfl rfl rfl h (h.2.2.2 idx (find_lt_128 rd a idx hfind)), rfl⟩

theorem ramdisk_truncate_inv (rd : ramdisk_t) (h : ramdisk_handle_t)
    (hrd : RdInv rd) (hh : HInv rd h)
    (hpos : h.position ≤ (rd.files.getD h.file_index default).allocated) :
    RdInv (ramdisk_truncate rd h).1 ∧ (ramdisk_truncate rd h).1.data_size = rd.data_size := by
  simp only [ramdisk_truncate]
  split
  · exact ⟨hrd, rfl⟩
  · exact ⟨rdInv_set_slot rd _ h.file_index _ rfl rfl rfl hrd
      ⟨hpos, (hrd.2.2.2 h.file_index hh.2).2⟩, rfl⟩

theorem ramdisk_seek_hinv (rd : ramdisk_t) (h : ramdisk_handle_t) (pos : Nat)
    (hh : HInv rd h) (hpos : pos ≤ rd.data_size) :
    HInv rd (ramdisk_seek rd h pos).1 := by
  simp only [ramdisk_seek]
  split
  · exact hh
  split
  · exact hh
  · exact ⟨hpos, hh.2⟩

theorem ramdisk_seek_rel_hinv (rd : ramdisk_t) (h : ramdisk_handle_t) (off : Int)
    (hh : HInv rd h) (hpos : seekRelTarget h off ≤ rd.data_size) :
    HInv rd (ramdisk_seek_rel rd h off).1 := by
  simp only [ramdisk_seek_rel]
  split
  · exact hh
  · exact ramdisk_seek_hinv rd h (seekRelTarget h off) hh hpos

theorem ramdisk_seek_end_hinv (rd : ramdisk_t) (h : ramdisk_handle_t)
    (hrd : RdInv rd) (hh : HInv rd h) :
    HInv rd (ramdisk_seek_end rd h).1 := by
  simp only [ramdisk_seek_end]
  split
  · exact hh
  · refine ⟨?_, hh.2⟩
    have hs := hrd.2.2.2 h.file_index hh.2
    have hdp := hrd.2.1
    show (rd.files.getD h.file_index default).size ≤ rd.data_size
    omega

theorem ramdisk_read_rd (rd : ramdisk_t) (h : ramdisk_handle_t) (size : Nat) :
    (ramdisk_read rd h size).1 = rd := by
  simp only [ramdisk_read]
  split
  · rfl
  split
  · rfl
  · rfl

theorem ramdisk_read_count_le (rd : ramdisk_t) (h : ramdisk_handle_t) (size : Nat) :
    (ramdisk_read rd h size).2.2.1 ≤ size := by
  simp only [ramdisk_read]
  split
  · exact Nat.zero_le _
  split
  · exact Nat.zero_le _
  · show (if (rd.files.getD h.file_index default).size - h.position < size then (rd.files.getD h.file_index default).size - h.position else size) ≤ size
    split <;> omega

theorem ramdisk_read_hinv (rd : ramdisk_t) (h : ramdisk_handle_t) (size : Nat)
    (hrd : RdInv rd) (hh : HInv rd h) :
    HInv rd (ramdisk_read rd h size).2.1 := by
  simp only [ramdisk_read]
  split
  · exact hh
  split
  · exact hh
  · refine ⟨?_, hh.2⟩
    have hs := hrd.2.2.2 h.file_index hh.2
    have hdp := hrd.2.1
    show (h.position + if (rd.files.getD h.file_index default).size - h.position < size then (rd.files.getD h.file_index default).size - h.position else size) % 4294967296 ≤ rd.data_size
    have hb : (h.position + if (rd.files.getD h.file_index default).size - h.position < size then (rd.files.getD h.file_index default).size - h.position else size) ≤ rd.data_size := by
      split <;> omega
    exact le_trans (Nat.mod_le _ _) hb

theorem ramdisk_open_finish_inv (rd : ramdisk_t) (idx : Nat) (wm : Bool)
    (hidx : idx < 128) :
    (ramdisk_open_finish rd idx wm).1 = rd ∧ HInv rd (ramdisk_open_finish rd idx wm).2 := by
  simp only [ramdisk_open_finish]
  split
  · exact ⟨rfl, Nat.zero_le _, show (0:Nat) < 128 by decide⟩
  · exact ⟨rfl, Nat.zero_le _, hidx⟩

theorem ramdisk_open_inv (rd : ramdisk_t) (n : List Char) (wm : Bool) (h : RdInv rd) :
    RdInv (ramdisk_open rd n wm).1 ∧ (ramdisk_open rd n wm).1.data_size = rd.data_size ∧
    HInv (ramdisk_open rd n wm).1 (ramdisk_open rd n wm).2 := by
  simp only [ramdisk_open]
  split
  · exact ⟨h, rfl, Nat.zero_le _, show (0:Nat) < 128 by decide⟩
  split
  next idx hfind =>
    obtain ⟨h1, h2⟩ := ramdisk_open_finish_inv rd idx wm (find_lt_128 rd n idx hfind)
    rw [h1]
    exact ⟨h, rfl, h2⟩
  next hfind =>
    split
    · obtain ⟨hc1, hc2⟩ := ramdisk_create_inv rd n 0 h
      split
      · split
        next idx hfind2 =>
          obtain ⟨g1, g2⟩ :=
            ramdisk_open_finish_inv (ramdisk_create rd n 0).1 idx wm
              (find_lt_128 (ramdisk_create rd n 0).1 n idx hfind2)
          rw [g1]
          exact ⟨hc1, hc2, g2⟩
        · exact ⟨hc1, hc2, Nat.zero_le _, show (0:Nat) < 128 by decide⟩
      · exact ⟨hc1, hc2, Nat.zero_le _, show (0:Nat) < 128 by decide⟩
    · exact ⟨h, rfl, Nat.zero_le _, show (0:Nat) < 128 by decide⟩

theorem ramdisk_open_append_inv (rd : ramdisk_t) (n : List Char) (h : RdInv rd) :
    RdInv (ramdisk_open_append rd n).1 ∧
    (ramdisk_open_append rd n).1.data_size = rd.data_size ∧
    HInv (ramdisk_open_append rd n).1 (ramdisk_open_append rd n).2 := by
  obtain ⟨h1, h2, h3⟩ := ramdisk_open_inv rd n true h
  simp only [ramdisk_open_append]
  split
  · exact ⟨h1, h2, h3⟩
  · refine ⟨h1, h2, ?_, h3.2⟩
    have hs := h1.2.2.2 (ramdisk_open rd n true).2.file_index h3.2
    have hdp := h1.2.1
    show ((ramdisk_open rd n true).1.files.getD (ramdisk_open rd n true).2.file_index
      default).size ≤ (ramdisk_open rd n true).1.data_size
    omega

theorem ramdisk_write_commit_inv (rd : ramdisk_t) (h : ramdisk_handle_t)
    (f : ramdisk_file_t) (buf : Nat → Nat) (size : Nat)
    (hrd : RdInv rd) (hidx : h.file_index < 128)
    (hne : (h.position + size) % 4294967296 = h.position + size)
    (hsa : f.size ≤ f.allocated)
    (hend : h.position + size ≤ f.allocated)
    (hoff : f.offset + f.allocated ≤ rd.data_ptr) :
    RdInv (ramdisk_write_commit rd h f buf size).1 ∧
    (ramdisk_write_commit rd h f buf size).1.data_size = rd.data_size ∧
    HInv (ramdisk_write_commit rd h f buf size).1
      (ramdisk_write_commit rd h f buf size).2.1 := by
  have hdp := hrd.2.1
  simp only [ramdisk_write_commit, hne]
  by_cases hlt : f.size < h.position + size
  · rw [if_pos hlt]
    refine And.intro ?_ (And.intro ?_ (And.intro ?_ hidx))
    · exact rdInv_set_slot rd _ h.file_index _ rfl rfl rfl hrd ⟨hend, hoff⟩
    · trivial
    · show h.position + size ≤ rd.data_size
      omega
  · rw [if_neg hlt]
    refine And.intro ?_ (And.intro ?_ (And.intro ?_ hidx))
    · exact rdInv_set_slot rd _ h.file_index _ rfl rfl rfl hrd ⟨hsa, hoff⟩
    · trivial
    · show h.position + size ≤ rd.data_size
      omega

theorem rdInv_update (rd rd2 : ramdisk_t) (idx : Nat) (f1 : ramdisk_file_t)
    (hfiles : rd2.files = rd.files.set idx f1)
    (hdp2 : rd.data_ptr ≤ rd2.data_ptr)
    (hdple : rd2.data_ptr ≤ rd2.data_size)
    (hds2 : rd2.data_size = rd.data_size)
    (h : RdInv rd)
    (hf : f1.size ≤ f1.allocated ∧ f1.offset + f1.allocated ≤ rd2.data_ptr) :
    RdInv rd2 := by
  obtain ⟨hlen, hdp, hds, hslots⟩ := h
  rw [RdInv, hfiles, hds2]
  by_cases hidx : idx < 128
  · refine ⟨by simpa using hlen, by omega, hds, fun i hi => ?_⟩
    by_cases hie : idx = i
    · subst hie
      rw [getD_set_self rd.files idx f1 default (by omega)]
      exact hf
    · rw [getD_set_ne rd.files idx i f1 default hie]
      have := hslots i hi
      omega
  · rw [List.set_eq_of_length_le (by omega)]
    refine ⟨hlen, by omega, hds, fun i hi => ?_⟩
    have := hslots i hi
    omega

theorem ramdisk_write_inv (rd : ramdisk_t) (h : ramdisk_handle_t)
    (buf : Nat → Nat) (size : Nat)
    (hrd : RdInv rd) (hh : HInv rd h) (hsz : size ≤ 1073741824) :
    RdInv (ramdisk_write rd h buf size).1 ∧
    (ramdisk_write rd h buf size).1.data_size = rd.data_size ∧
    HInv (ramdisk_write rd h buf size).1 (ramdisk_write rd h buf size).2.1 := by
  have hslot := hrd.2.2.2 h.file_index hh.2
  have hdp := hrd.2.1
  have hds := hrd.2.2.1
  have hposle := hh.1
  have hne : (h.position + size) % 4294967296 = h.position + size :=
    Nat.mod_eq_of_lt (by omega)
  simp only [ramdisk_write, hne]
  split
  · exact ⟨hrd, rfl, hh⟩
  split
  next hg =>
    split
    · exact ⟨hrd, rfl, hh⟩
    next hsp =>
      have hgeN := roundedSpan_ge (h.position + size) (by omega)
      have hleN := roundedSpan_le (h.position + size) (by omega)
      have hdpn : (rd.data_ptr + roundedSpan (h.position + size)) % 4294967296 =
          rd.data_ptr + roundedSpan (h.position + size) :=
        Nat.mod_eq_of_lt (by omega)
      rw [hdpn] at hsp
      rw [hdpn]
      refine ramdisk_write_commit_inv _ h _ buf size ?_ hh.2 hne ?_ ?_ ?_
      · refine rdInv_update rd _ h.file_index _ rfl ?_ ?_ rfl hrd ?_
        · show rd.data_ptr ≤ rd.data_ptr + roundedSpan (h.position + size)
          omega
        · show rd.data_ptr + roundedSpan (h.position + size) ≤ rd.data_size
          omega
        constructor
        · show (rd.files.getD h.file_index default).size ≤ roundedSpan (h.position + size)
          omega
        · show rd.data_ptr + roundedSpan (h.position + size) ≤
            rd.data_ptr + roundedSpan (h.position + size)
          exact Nat.le.refl
      · show (rd.files.getD h.file_index default).size ≤ roundedSpan (h.position + size)
        omega
      · show h.position + size ≤ roundedSpan (h.position + size)
        omega
      · show rd.data_ptr + roundedSpan (h.position + size) ≤
          rd.data_ptr + roundedSpan (h.position + size)
        exact Nat.le.refl
  next hg =>
    have hend : h.position + size ≤ (rd.files.getD h.file_index default).allocated := by
      push_neg at hg
      omega
    exact ramdisk_write_commit_inv rd h (rd.files.getD h.file_index default) buf size
      hrd hh.2 hne hslot.1 hend hslot.2

theorem getD_append_left {α : Type} (l : List α) (a d : α) (k : Nat)
    (h : k < l.length) : (l ++ [a]).getD k d = l.getD k d := by
  simp [List.getD_eq_getElem?_getD, List.getElem?_append_left h]

theorem getD_append_last {α : Type} (l : List α) (a d : α) :
    (l ++ [a]).getD l.length d = a := by
  simp [List.getD_eq_getElem?_getD]

theorem ramdisk_copy_loop_inv (fuel : Nat) :
    ∀ (rd : ramdisk_t) (hs hd : ramdisk_handle_t) (rem : Nat),
      RdInv rd → HInv rd hs → HInv rd hd →
      RdInv (ramdisk_copy_loop fuel rd hs hd rem).1 ∧
      (ramdisk_copy_loop fuel rd hs hd rem).1.data_size = rd.data_size := by
  induction fuel with
  | zero =>
    intro rd hs hd rem h1 _ _
    exact ⟨h1, rfl⟩
  | succ n ih =>
    intro rd hs hd rem h1 h2 h3
    simp only [ramdisk_copy_loop]
    split
    · exact ⟨h1, rfl⟩
    split
    next hlt =>
      rw [ramdisk_read_rd rd hs 512]
      split
      · exact ⟨h1, rfl⟩
      have hrh := ramdisk_read_hinv rd hs 512 h1 h2
      have hcnt := ramdisk_read_count_le rd hs 512
      have hw := ramdisk_write_inv rd hd (ramdisk_read rd hs 512).2.2.2
        (ramdisk_read rd hs 512).2.2.1 h1 h3 (by omega)
      split
      · exact ⟨hw.1, hw.2.1⟩
      · obtain ⟨l1, l2⟩ := ih
          (ramdisk_write rd hd (ramdisk_read rd hs 512).2.2.2 (ramdisk_read rd hs 512).2.2.1).1
          (ramdisk_read rd hs 512).2.1
          (ramdisk_write rd hd (ramdisk_read rd hs 512).2.2.2 (ramdisk_read rd hs 512).2.2.1).2.1
          (rem - (ramdisk_read rd hs 512).2.2.1)
          hw.1 (hInv_transport rd _ _ hw.2.1 hrh) hw.2.2
        exact ⟨l1, by rw [l2, hw.2.1]⟩
    next hlt =>
      rw [ramdisk_read_rd rd hs rem]
      split
      · exact ⟨h1, rfl⟩
      have hrh := ramdisk_read_hinv rd hs rem h1 h2
      have hcnt := ramdisk_read_count_le rd hs rem
      have hw := ramdisk_write_inv rd hd (ramdisk_read rd hs rem).2.2.2
        (ramdisk_read rd hs rem).2.2.1 h1 h3 (by omega)
      split
      · exact ⟨hw.1, hw.2.1⟩
      · obtain ⟨l1, l2⟩ := ih
          (ramdisk_write rd hd (ramdisk_read rd hs rem).2.2.2 (ramdisk_read rd hs rem).2.2.1).1
          (ramdisk_read rd hs rem).2.1
          (ramdisk_write rd hd (ramdisk_read rd hs rem).2.2.2 (ramdisk_read rd hs rem).2.2.1).2.1
          (rem - (ramdisk_read rd hs rem).2.2.1)
          hw.1 (hInv_transport rd _ _ hw.2.1 hrh) hw.2.2
        exact ⟨l1, by rw [l2, hw.2.1]⟩

theorem ramdisk_copy_inv (rd : ramdisk_t) (a b : List Char) (h : RdInv rd) :
    RdInv (ramdisk_copy rd a b).1 ∧ (ramdisk_copy rd a b).1.data_size = rd.data_size := by
  simp only [ramdisk_copy]
  split
  · exact ⟨h, rfl⟩
  next size fl hstat =>
    split
    · exact ⟨h, rfl⟩
    obtain ⟨o1, o2, o3⟩ := ramdisk_open_inv rd a false h
    split
    · exact ⟨o1, o2⟩
    obtain ⟨p1, p2, p3⟩ := ramdisk_open_inv (ramdisk_open rd a false).1 b true o1
    split
    · exact ⟨p1, by rw [p2, o2]⟩
    obtain ⟨l1, l2⟩ := ramdisk_copy_loop_inv (size + 1)
      (ramdisk_open (ramdisk_open rd a false).1 b true).1
      (ramdisk_open rd a false).2
      (ramdisk_open (ramdisk_open rd a false).1 b true).2
      size p1 (hInv_transport _ _ _ p2 o3) p3
    split
    next di hfind =>
      have hdi : di < 128 := find_lt_128 _ b di hfind
      have hslot := l1.2.2.2 di hdi
      exact ⟨rdInv_set_slot _ _ di _ rfl rfl rfl l1 hslot,
        l2.trans (p2.trans o2)⟩
    · exact ⟨l1, l2.trans (p2.trans o2)⟩

theorem worldInv_step (w : World) (op : RdOp) (h : WorldInv w) (hok : opOk w op) :
    WorldInv (stepWorld w op) := by
  obtain ⟨hrd, hhs⟩ := h
  cases op with
  | create n fl =>
    obtain ⟨c1, c2⟩ := ramdisk_create_inv w.rd n fl hrd
    exact ⟨c1, fun k hk => hInv_transport w.rd _ _ c2 (hhs k hk)⟩
  | delete n =>
    obtain ⟨c1, c2⟩ := ramdisk_delete_inv w.rd n hrd
    exact ⟨c1, fun k hk => hInv_transport w.rd _ _ c2 (hhs k hk)⟩
  | rename a b =>
    obtain ⟨c1, c2⟩ := ramdisk_rename_inv w.rd a b hrd
    exact ⟨c1, fun k hk => hInv_transport w.rd _ _ c2 (hhs k hk)⟩
  | copy a b =>
    obtain ⟨c1, c2⟩ := ramdisk_copy_inv w.rd a b hrd
    exact ⟨c1, fun k hk => hInv_transport w.rd _ _ c2 (hhs k hk)⟩
  | openF n wm =>
    obtain ⟨o1, o2, o3⟩ := ramdisk_open_inv w.rd n wm hrd
    refine ⟨o1, fun k hk => ?_⟩
    show HInv (ramdisk_open w.rd n wm).1 ((w.handles ++ [(ramdisk_open w.rd n wm).2]).getD k default)
    by_cases hkl : k < w.handles.length
    · rw [getD_append_left w.handles _ default k hkl]
      exact hInv_transport w.rd _ _ o2 (hhs k hkl)
    · have hkeq : k = w.handles.length := by
        have : k < (w.handles ++ [(ramdisk_open w.rd n wm).2]).length := hk
        simp at this
        omega
      rw [hkeq, getD_append_last]
      exact o3
  | openAppend n =>
    obtain ⟨o1, o2, o3⟩ := ramdisk_open_append_inv w.rd n hrd
    refine ⟨o1, fun k hk => ?_⟩
    show HInv (ramdisk_open_append w.rd n).1
      ((w.handles ++ [(ramdisk_open_append w.rd n).2]).getD k default)
    by_cases hkl : k < w.handles.length
    · rw [getD_append_left w.handles _ default k hkl]
      exact hInv_transport w.rd _ _ o2 (hhs k hkl)
    · have hkeq : k = w.handles.length := by
        have : k < (w.handles ++ [(ramdisk_open_append w.rd n).2]).length := hk
        simp at this
        omega
      rw [hkeq, getD_append_last]
      exact o3
  | write i buf size =>
    simp only [stepWorld]
    split
    next hi =>
      obtain ⟨w1, w2, w3⟩ :=
        ramdisk_write_inv w.rd (w.handles.getD i default) buf size hrd (hhs i hi) hok
      refine ⟨w1, fun k hk => ?_⟩
      have hk2 : k < w.handles.length := by
        have : k < (w.handles.set i
          (ramdisk_write w.rd (w.handles.getD i default) buf size).2.1).length := hk
        simpa using this
      by_cases hki : i = k
      · subst hki
        rw [getD_set_self w.handles i _ default hk2]
        exact w3
      · rw [getD_set_ne w.handles i k _ default hki]
        exact hInv_transport w.rd _ _ w2 (hhs k hk2)
    · exact ⟨hrd, hhs⟩
  | seek i pos =>
    simp only [stepWorld]
    split
    next hi =>
      refine ⟨hrd, fun k hk => ?_⟩
      have hk2 : k < w.handles.length := by
        have : k < (w.handles.set i
          (ramdisk_seek w.rd (w.handles.getD i default) (pos % 4294967296)).1).length := hk
        simpa using this
      by_cases hki : i = k
      · subst hki
        rw [getD_set_self w.handles i _ default hk2]
        exact ramdisk_seek_hinv w.rd (w.handles.getD i default) (pos % 4294967296)
          (hhs i hi) hok
      · rw [getD_set_ne w.handles i k _ default hki]
        exact hhs k hk2
    · exact ⟨hrd, hhs⟩
  | seekRel i off =>
    simp only [stepWorld]
    split
    next hi =>
      refine ⟨hrd, fun k hk => ?_⟩
      have hk2 : k < w.handles.length := by
        have : k < (w.handles.set i
          (ramdisk_seek_rel w.rd (w.handles.getD i default) off).1).length := hk
        simpa using this
      by_cases hki : i = k
      · subst hki
        rw [getD_set_self w.handles i _ default hk2]
        exact ramdisk_seek_rel_hinv w.rd (w.handles.getD i default) off (hhs i hi) hok
      · rw [getD_set_ne w.handles i k _ default hki]
        exact hhs k hk2
    · exact ⟨hrd, hhs⟩
  | seekEnd i =>
    simp only [stepWorld]
    split
    next hi =>
      refine ⟨hrd, fun k hk => ?_⟩
      have hk2 : k < w.handles.length := by
        have : k < (w.handles.set i
          (ramdisk_seek_end w.rd (w.handles.getD i default)).1).length := hk
        simpa using this
      by_cases hki : i = k
      · subst hki
        rw [getD_set_self w.handles i _ default hk2]
        exact ramdisk_seek_end_hinv w.rd (w.handles.getD i default) hrd (hhs i hi)
      · rw [getD_set_ne w.handles i k _ default hki]
        exact hhs k hk2
    · exact ⟨hrd, hhs⟩
  | truncate i =>
    simp only [stepWorld]
    split
    next hi =>
      obtain ⟨t1, t2⟩ := ramdisk_truncate_inv w.rd (w.handles.getD i default) hrd (hhs i hi) hok
      exact ⟨t1, fun k hk => hInv_transport w.rd _ _ t2 (hhs k hk)⟩
    · exact ⟨hrd, hhs⟩

theorem worldInv_of_reachable (w : World) (h : ReachableOk w) : WorldInv w := by
  induction h with
  | init dataArea size rd0 hle hinit =>
    exact ⟨ramdisk_init_inv dataArea size rd0 hle hinit,
      fun k hk => absurd hk (by simp)⟩
  | step w op hw hok ih => exact worldInv_step w op ih hok

/-- Claim C9: every state reachable from a successful `ramdisk_init` by
`opOk`-respecting sequences of the public operations keeps the bump pointer
inside the arena, and every USED file-table slot satisfies
size ≤ allocated and offset + allocated ≤ data_ptr. -/
theorem ramdisk_reachable_invariant_c9 (w : World) (h : ReachableOk w) :
    w.rd.data_ptr ≤ w.rd.data_size ∧
    ∀ i, i < w.rd.files.length →
      (w.rd.files.getD i default).flags % 2 = 1 →
      (w.rd.files.getD i default).size ≤ (w.rd.files.getD i default).allocated ∧
      (w.rd.files.getD i default).offset + (w.rd.files.getD i default).allocated ≤
        w.rd.data_ptr := by
  have hinv := worldInv_of_reachable w h
  refine ⟨hinv.1.2.1, fun i hi _ => ?_⟩
  exact hinv.1.2.2.2 i (by rw [hinv.1.1] at hi; exact hi)

/-- Witness for C9 at the freshly initialized 64 KiB disk. -/
theorem ramdisk_reachable_invariant_c9_witness : rdEx.data_ptr ≤ rdEx.data_size :=
  (ramdisk_reachable_invariant_c9 { rd := rdEx, handles := [] }
    (ReachableOk.init (fun _ => 0) 65536 rdEx (by decide) rfl)).1

/-- Counterexample for the unrestricted form of C9: open a fresh file for
writing, seek the write handle to 5000, truncate — the live slot's size now
exceeds its (zero) allocation. -/
theorem ramdisk_invariant_c9_counterexample :
    (c9WorldBad.rd.files.getD 0 default).flags % 2 = 1 ∧
    (c9WorldBad.rd.files.getD 0 default).allocated <
      (c9WorldBad.rd.files.getD 0 default).size := by decide

theorem rd_memcpy_below (n : Nat) : ∀ (d : Nat → Nat) (dst src : Nat), src + n ≤ dst →
    ∀ a, rd_memcpy d dst src n a =
      if dst ≤ a ∧ a < dst + n then d (src + (a - dst)) else d a := by
  induction n with
  | zero =>
    intro d dst src _ a
    simp only [rd_memcpy]
    rw [if_neg (by omega)]
  | succ k ih =>
    intro d dst src hle a
    simp only [rd_memcpy]
    rw [ih (fun x => if x = dst then d src else d x) (dst + 1) (src + 1) (by omega) a]
    by_cases h1 : dst + 1 ≤ a ∧ a < dst + 1 + k
    · rw [if_pos h1, if_neg (show ¬ src + 1 + (a - (dst + 1)) = dst by omega),
        if_pos (show dst ≤ a ∧ a < dst + (k + 1) by omega)]
      congr 1
      omega
    · rw [if_neg h1]
      by_cases h2 : a = dst
      · subst h2
        rw [if_pos rfl, if_pos (show a ≤ a ∧ a < a + (k + 1) by omega)]
        congr 1
        omega
      · rw [if_neg h2, if_neg (show ¬(dst ≤ a ∧ a < dst + (k + 1)) by omega)]

/-- Claim C8: a `ramdisk_write` past the allocated span reserves a fresh
span of `roundedSpan` bytes (the end offset rounded up to 512 with a
4096-byte floor — not to 4 KiB as claimed) at the bump pointer, moves the
old contents there (when the old span lies below the bump pointer, so the
forward `rd_memcpy` does not overlap itself), points the file at the old
bump pointer, and advances the pointer by exactly the span size. -/
theorem ramdisk_write_realloc_c8 (rd : ramdisk_t) (h : ramdisk_handle_t)
    (buf : Nat → Nat) (size : Nat)
    (hopen : h.h_open = true) (hwm : h.write_mode = true) (hsz : 0 < size)
    (hgrow : (rd.files.getD h.file_index default).allocated = 0 ∨
             (rd.files.getD h.file_index default).allocated < h.position + size)
    (hspace : rd.data_ptr + roundedSpan (h.position + size) ≤ rd.data_size)
    (hds : rd.data_size ≤ 1073741824) (hps : h.position + size ≤ 1073741824)
    (hidx : h.file_index < rd.files.length) :
    (ramdisk_write rd h buf size).2.2 = size ∧
    ((ramdisk_write rd h buf size).1.files.getD h.file_index default).offset = rd.data_ptr ∧
    ((ramdisk_write rd h buf size).1.files.getD h.file_index default).allocated =
      roundedSpan (h.position + size) ∧
    (ramdisk_write rd h buf size).1.data_ptr =
      rd.data_ptr + roundedSpan (h.position + size) ∧
    (∀ j, j < size →
      (ramdisk_write rd h buf size).1.data (rd.data_ptr + h.position + j) = buf j) ∧
    (0 < (rd.files.getD h.file_index default).allocated →
      (rd.files.getD h.file_index default).offset +
        (rd.files.getD h.file_index default).size ≤ rd.data_ptr →
      ∀ j, j < (rd.files.getD h.file_index default).size →
        (j < h.position ∨ h.position + size ≤ j) →
        (ramdisk_write rd h buf size).1.data (rd.data_ptr + j) =
          rd.data ((rd.files.getD h.file_index default).offset + j)) := by
  have hne : (h.position + size) % 4294967296 = h.position + size :=
    Nat.mod_eq_of_lt (by omega)
  have hdpn : (rd.data_ptr + roundedSpan (h.position + size)) % 4294967296 =
      rd.data_ptr + roundedSpan (h.position + size) :=
    Nat.mod_eq_of_lt (by omega)
  have hbase : (rd.data_ptr + h.position) % 4294967296 = rd.data_ptr + h.position :=
    Nat.mod_eq_of_lt (by omega)
  have hc1 : ¬(¬ h.h_open = true ∨ ¬ h.write_mode = true ∨ size = 0) := by
    simp [hopen, hwm]
    omega
  have hc3 : ¬(rd.data_size < rd.data_ptr + roundedSpan (h.position + size)) := by omega
  simp only [ramdisk_write, ramdisk_write_commit, hne, hdpn, hbase,
    if_neg hc1, if_pos hgrow, if_neg hc3, List.set_set]
  by_cases hfs : (rd.files.getD h.file_index default).size < h.position + size
  · simp only [if_pos hfs, getD_set_self rd.files h.file_index _ default hidx]
    refine And.intro trivial (And.intro ?_ (And.intro ?_ (And.intro trivial (And.intro ?_ ?_))))
    · trivial
    · trivial
    · intro j hj
      rw [if_pos (show rd.data_ptr + h.position ≤ rd.data_ptr + h.position + j ∧
          rd.data_ptr + h.position + j < rd.data_ptr + h.position + size by omega)]
      congr 1
      omega
    · intro halloc hov j hj hout
      rw [if_neg (show ¬(rd.data_ptr + h.position ≤ rd.data_ptr + j ∧
          rd.data_ptr + j < rd.data_ptr + h.position + size) by omega)]
      rw [if_pos (show 0 < (rd.files.getD h.file_index default).size ∧
          0 < (rd.files.getD h.file_index default).allocated by exact ⟨by omega, halloc⟩)]
      rw [rd_memcpy_below (rd.files.getD h.file_index default).size rd.data rd.data_ptr
          (rd.files.getD h.file_index default).offset hov (rd.data_ptr + j)]
      rw [if_pos (show rd.data_ptr ≤ rd.data_ptr + j ∧
          rd.data_ptr + j < rd.data_ptr + (rd.files.getD h.file_index default).size by omega)]
      congr 1
      omega
  · simp only [if_neg hfs, getD_set_self rd.files h.file_index _ default hidx]
    refine And.intro trivial (And.intro ?_ (And.intro ?_ (And.intro trivial (And.intro ?_ ?_))))
    · trivial
    · trivial
    · intro j hj
      rw [if_pos (show rd.data_ptr + h.position ≤ rd.data_ptr + h.position + j ∧
          rd.data_ptr + h.position + j < rd.data_ptr + h.position + size by omega)]
      congr 1
      omega
    · intro halloc hov j hj hout
      rw [if_neg (show ¬(rd.data_ptr + h.position ≤ rd.data_ptr + j ∧
          rd.data_ptr + j < rd.data_ptr + h.position + size) by omega)]
      rw [if_pos (show 0 < (rd.files.getD h.file_index default).size ∧
          0 < (rd.files.getD h.file_index default).allocated by exact ⟨by omega, halloc⟩)]
      rw [rd_memcpy_below (rd.files.getD h.file_index default).size rd.data rd.data_ptr
          (rd.files.getD h.file_index default).offset hov (rd.data_ptr + j)]
      rw [if_pos (show rd.data_ptr ≤ rd.data_ptr + j ∧
          rd.data_ptr + j < rd.data_ptr + (rd.files.getD h.file_index default).size by omega)]
      congr 1
      omega

set_option maxRecDepth 8192 in
/-- Witness for C8: writing 4097 bytes at position 0 into the fresh file
"A" on the 64 KiB disk returns 4097, rebases the file at old bump pointer
0, allocates `roundedSpan 4097` = 4608 bytes and bumps the pointer to 4608. -/
theorem ramdisk_write_realloc_c8_witness :
    (ramdisk_write rdExOpen.1 rdExOpen.2 (fun _ => 7) 4097).2.2 = 4097 ∧
    ((ramdisk_write rdExOpen.1 rdExOpen.2 (fun _ => 7) 4097).1.files.getD
      rdExOpen.2.file_index default).offset = rdExOpen.1.data_ptr ∧
    ((ramdisk_write rdExOpen.1 rdExOpen.2 (fun _ => 7) 4097).1.files.getD
      rdExOpen.2.file_index default).allocated =
      roundedSpan (rdExOpen.2.position + 4097) ∧
    (ramdisk_write rdExOpen.1 rdExOpen.2 (fun _ => 7) 4097).1.data_ptr =
      rdExOpen.1.data_ptr + roundedSpan (rdExOpen.2.position + 4097) := by
  have hthm := ramdisk_write_realloc_c8 rdExOpen.1 rdExOpen.2 (fun _ => 7) 4097
    (by decide) (by decide) (by decide) (by decide) (by decide) (by decide)
    (by decide) (by decide)
  exact ⟨hthm.1, hthm.2.1, hthm.2.2.1, hthm.2.2.2.1⟩

/-- Counterexample for the claimed 4 KiB rounding of C8: the 4097-byte
write gets a 4608-byte span (512-byte rounding with a 4096 floor), not the
8192 bytes that rounding 4097 up to 4 KiB would give. -/
theorem ramdisk_write_realloc_c8_counterexample :
    c8Write.2.2 = 4097 ∧
    (c8Write.1.files.getD 0 default).allocated = 4608 ∧
    ¬ (c8Write.1.files.getD 0 default).allocated = 8192 := by decide

end Ramdisk

namespace Fat12

theorem fat12_cluster_to_sector_lt (fs : Fat12Fs) (c : Nat) :
    fat12_cluster_to_sector fs c < 4294967296 := by
  unfold fat12_cluster_to_sector
  omega

theorem writeSector_same (d : Disk) (lba : Nat) (c : Nat → Nat) (i : Nat) :
    writeSector d lba c lba i = c i := by
  simp [writeSector]

theorem writeSector_other (d : Disk) (lba : Nat) (c : Nat → Nat) (s i : Nat)
    (h : s ≠ lba) : writeSector d lba c s i = d s i := by
  simp [writeSector, h]

theorem fat12_write_loop_nil (fuel : Nat) (fs : Fat12Fs) (d : Disk)
    (f : fat12_file_t) (w : Nat) :
    fat12_write_loop (fuel + 1) fs d f [] w = (fs, d, f, w) := by
  simp [fat12_write_loop]

theorem fat12_write_loop_step (fuel : Nat) (fs : Fat12Fs) (disk : Disk)
    (file : fat12_file_t) (data : List Nat) (w k : Nat)
    (h1 : file.cluster ≠ 0) (h2 : file.cluster_offset = 512 * k)
    (h4 : 0 < data.length)
    (h5 : 512 * k + data.length ≤ fs.sectors_per_cluster * 512) :
    fat12_write_loop (fuel + 1) fs disk file data w =
      fat12_write_loop fuel fs
        (writeSector disk
          ((fat12_cluster_to_sector fs file.cluster + k) % 4294967296)
          (fun i => if i < min 512 data.length then data.getD i 0 % 256
            else disk ((fat12_cluster_to_sector fs file.cluster + k) % 4294967296) i))
        (if file.file_size < (file.position + min 512 data.length) % 4294967296 then
           { file with
               position := (file.position + min 512 data.length) % 4294967296,
               cluster_offset :=
                 (file.cluster_offset + min 512 data.length) % 4294967296,
               file_size := (file.position + min 512 data.length) % 4294967296,
               dirty := true }
         else
           { file with
               position := (file.position + min 512 data.length) % 4294967296,
               cluster_offset :=
                 (file.cluster_offset + min 512 data.length) % 4294967296 })
        (data.drop (min 512 data.length)) (w + min 512 data.length) := by
  have e1 : file.cluster_offset / 512 = k := by omega
  have e2 : file.cluster_offset % 512 = 0 := by omega
  simp only [fat12_write_loop, if_neg (show ¬ data.length = 0 by omega),
    if_neg h1,
    if_neg (show ¬ fs.sectors_per_cluster * 512 ≤ file.cluster_offset by omega),
    e1, e2, Nat.sub_zero, Nat.zero_add, Nat.zero_le, true_and]

theorem getD_drop (l : List Nat) (n i : Nat) :
    (l.drop n).getD i 0 = l.getD (n + i) 0 := by
  simp [List.getD_eq_getElem?_getD, List.getElem?_drop]

theorem fat12_write_loop_spec (fuel : Nat) :
    ∀ (fs : Fat12Fs) (disk : Disk) (file : fat12_file_t) (data : List Nat) (k w : Nat),
    file.cluster ≠ 0 →
    file.cluster_offset = 512 * k →
    file.position = 512 * k →
    0 < data.length →
    512 * k + data.length ≤ fs.sectors_per_cluster * 512 →
    fs.sectors_per_cluster ≤ 255 →
    data.length < fuel →
    (fat12_write_loop fuel fs disk file data w).1 = fs ∧
    (fat12_write_loop fuel fs disk file data w).2.2.2 = w + data.length ∧
    (fat12_write_loop fuel fs disk file data w).2.2.1.f_open = file.f_open ∧
    (fat12_write_loop fuel fs disk file data w).2.2.1.cluster = file.cluster ∧
    (fat12_write_loop fuel fs disk file data w).2.2.1.cluster_low = file.cluster_low ∧
    (fat12_write_loop fuel fs disk file data w).2.2.1.position = 512 * k + data.length ∧
    (fat12_write_loop fuel fs disk file data w).2.2.1.file_size =
      (if file.file_size < 512 * k + data.length then 512 * k + data.length
       else file.file_size) ∧
    (∀ j, j < data.length →
      (fat12_write_loop fuel fs disk file data w).2.1
          ((fat12_cluster_to_sector fs file.cluster + (512 * k + j) / 512) % 4294967296)
          ((512 * k + j) % 512) = data.getD j 0 % 256) ∧
    (∀ s b, (∀ i, k ≤ i → i < k + (data.length + 511) / 512 →
        s ≠ (fat12_cluster_to_sector fs file.cluster + i) % 4294967296) →
      (fat12_write_loop fuel fs disk file data w).2.1 s b = disk s b) := by
  induction fuel with
  | zero =>
    intro fs disk file data k w _ _ _ _ _ _ hf
    omega
  | succ F ih =>
    intro fs disk file data k w h1 h2 h3 h4 h5 h6 hf
    have hc2s := fat12_cluster_to_sector_lt fs file.cluster
    rw [fat12_write_loop_step F fs disk file data w k h1 h2 h4 h5]
    have hpos2 : (file.position + min 512 data.length) % 4294967296 =
        512 * k + min 512 data.length := by
      rw [h3]; omega
    have hco2 : (file.cluster_offset + min 512 data.length) % 4294967296 =
        512 * k + min 512 data.length := by
      rw [h2]; omega
    by_cases hlen : data.length ≤ 512
    · have hmin : min 512 data.length = data.length := by omega
      have hdropnil : data.drop (min 512 data.length) = [] := by
        rw [hmin, List.drop_length]
      obtain ⟨F2, rfl⟩ : ∃ F2, F = F2 + 1 := ⟨F - 1, by omega⟩
      rw [hdropnil, fat12_write_loop_nil]
      rw [hmin] at hpos2 hco2
      simp only [hmin]
      by_cases hss : file.file_size < (file.position + data.length) % 4294967296
      · rw [if_pos hss]
        rw [hpos2] at hss
        dsimp only
        refine ⟨by trivial, by trivial, by trivial, by trivial, by trivial, hpos2, ?_, ?_, ?_⟩
        · rw [hpos2, if_pos hss]
        · intro j hj
          have hsec : (512 * k + j) / 512 = k := by omega
          have hbyte : (512 * k + j) % 512 = j := by omega
          rw [hsec, hbyte, writeSector_same, if_pos (show j < data.length from hj)]
        · intro s b hs
          rw [writeSector_other _ _ _ _ _ (hs k (by omega) (by omega))]
      · rw [if_neg hss]
        rw [hpos2] at hss
        dsimp only
        refine ⟨by trivial, by trivial, by trivial, by trivial, by trivial, hpos2, ?_, ?_, ?_⟩
        · rw [if_neg hss]
        · intro j hj
          have hsec : (512 * k + j) / 512 = k := by omega
          have hbyte : (512 * k + j) % 512 = j := by omega
          rw [hsec, hbyte, writeSector_same, if_pos (show j < data.length from hj)]
        · intro s b hs
          rw [writeSector_other _ _ _ _ _ (hs k (by omega) (by omega))]
    · have hmin : min 512 data.length = 512 := by omega
      rw [hmin] at hpos2 hco2
      simp only [hmin]
      by_cases hss : file.file_size < (file.position + 512) % 4294967296
      · rw [if_pos hss]
        rw [hpos2] at hss
        obtain ⟨i1, i2, i3, i4, i5, i6, i7, i8, i9⟩ := ih fs
          (writeSector disk
            ((fat12_cluster_to_sector fs file.cluster + k) % 4294967296)
            (fun i => if i < 512 then data.getD i 0 % 256
              else disk ((fat12_cluster_to_sector fs file.cluster + k) % 4294967296) i))
          { file with
              position := (file.position + 512) % 4294967296,
              cluster_offset := (file.cluster_offset + 512) % 4294967296,
              file_size := (file.position + 512) % 4294967296,
              dirty := true }
          (data.drop 512) (k + 1) (w + 512) h1
          (by show (file.cluster_offset + 512) % 4294967296 = 512 * (k + 1); omega)
          (by show (file.position + 512) % 4294967296 = 512 * (k + 1); omega)
          (by rw [List.length_drop]; omega)
          (by rw [List.length_drop]; omega)
          h6
          (by rw [List.length_drop]; omega)
        refine ⟨i1, ?_, i3, i4, i5, ?_, ?_, ?_, ?_⟩
        · rw [i2, List.length_drop]; omega
        · rw [i6, List.length_drop]; omega
        · rw [i7, List.length_drop]
          have hfsz : ({ file with
              position := (file.position + 512) % 4294967296,
              cluster_offset := (file.cluster_offset + 512) % 4294967296,
              file_size := (file.position + 512) % 4294967296,
              dirty := true } : fat12_file_t).file_size = 512 * k + 512 := hpos2
          rw [hfsz]
          split_ifs <;> omega
        · intro j hj
          by_cases hj512 : j < 512
          · have hne : ∀ i, k + 1 ≤ i → i < k + 1 + ((data.drop 512).length + 511) / 512 →
                ((fat12_cluster_to_sector fs file.cluster + k) % 4294967296) ≠
                ((fat12_cluster_to_sector fs file.cluster + i) % 4294967296) := by
              intro i hi1 hi2
              rw [List.length_drop] at hi2
              omega
            have hsec : (512 * k + j) / 512 = k := by omega
            have hbyte : (512 * k + j) % 512 = j := by omega
            rw [hsec, hbyte, i9 _ j hne, writeSector_same, if_pos hj512]
          · have hfact := i8 (j - 512) (by rw [List.length_drop]; omega)
            rw [show 512 * (k + 1) + (j - 512) = 512 * k + j by omega] at hfact
            rw [getD_drop, show 512 + (j - 512) = j by omega] at hfact
            exact hfact
        · intro s b hs
          have hsub : ∀ i, k + 1 ≤ i → i < k + 1 + ((data.drop 512).length + 511) / 512 →
              s ≠ (fat12_cluster_to_sector fs file.cluster + i) % 4294967296 := by
            intro i hi1 hi2
            rw [List.length_drop] at hi2
            exact hs i (by omega) (by omega)
          rw [i9 s b hsub, writeSector_other _ _ _ _ _ (hs k (by omega) (by omega))]
      · rw [if_neg hss]
        rw [hpos2] at hss
        obtain ⟨i1, i2, i3, i4, i5, i6, i7, i8, i9⟩ := ih fs
          (writeSector disk
            ((fat12_cluster_to_sector fs file.cluster + k) % 4294967296)
            (fun i => if i < 512 then data.getD i 0 % 256
              else disk ((fat12_cluster_to_sector fs file.cluster + k) % 4294967296) i))
          { file with
              position := (file.position + 512) % 4294967296,
              cluster_offset := (file.cluster_offset + 512) % 4294967296 }
          (data.drop 512) (k + 1) (w + 512) h1
          (by show (file.cluster_offset + 512) % 4294967296 = 512 * (k + 1); omega)
          (by show (file.position + 512) % 4294967296 = 512 * (k + 1); omega)
          (by rw [List.length_drop]; omega)
          (by rw [List.length_drop]; omega)
          h6
          (by rw [List.length_drop]; omega)
        refine ⟨i1, ?_, i3, i4, i5, ?_, ?_, ?_, ?_⟩
        · rw [i2, List.length_drop]; omega
        · rw [i6, List.length_drop]; omega
        · rw [i7, List.length_drop]
          have hfsz : ({ file with
              position := (file.position + 512) % 4294967296,
              cluster_offset := (file.cluster_offset + 512) % 4294967296 } :
              fat12_file_t).file_size = file.file_size := rfl
          rw [hfsz]
          split_ifs <;> omega
        · intro j hj
          by_cases hj512 : j < 512
          · have hne : ∀ i, k + 1 ≤ i → i < k + 1 + ((data.drop 512).length + 511) / 512 →
                ((fat12_cluster_to_sector fs file.cluster + k) % 4294967296) ≠
                ((fat12_cluster_to_sector fs file.cluster + i) % 4294967296) := by
              intro i hi1 hi2
              rw [List.length_drop] at hi2
              omega
            have hsec : (512 * k + j) / 512 = k := by omega
            have hbyte : (512 * k + j) % 512 = j := by omega
            rw [hsec, hbyte, i9 _ j hne, writeSector_same, if_pos hj512]
          · have hfact := i8 (j - 512) (by rw [List.length_drop]; omega)
            rw [show 512 * (k + 1) + (j - 512) = 512 * k + j by omega] at hfact
            rw [getD_drop, show 512 + (j - 512) = j by omega] at hfact
            exact hfact
        · intro s b hs
          have hsub : ∀ i, k + 1 ≤ i → i < k + 1 + ((data.drop 512).length + 511) / 512 →
              s ≠ (fat12_cluster_to_sector fs file.cluster + i) % 4294967296 := by
            intro i hi1 hi2
            rw [List.length_drop] at hi2
            exact hs i (by omega) (by omega)
          rw [i9 s b hsub, writeSector_other _ _ _ _ _ (hs k (by omega) (by omega))]

theorem fat12_write_loop_alloc (fuel : Nat) (fs : Fat12Fs) (disk : Disk)
    (file : fat12_file_t) (data : List Nat) (w : Nat)
    (hne : data.length ≠ 0) (hc0 : file.cluster = 0)
    (hcal : fat12_find_free_cluster fs ≠ 0) :
    fat12_write_loop (fuel + 1) fs disk file data w =
      fat12_write_loop (fuel + 1)
        { fs with
            fat_cache :=
              fat12_write_fat fs.fat_cache (fat12_find_free_cluster fs) 4095,
            fat_dirty := true }
        disk
        { file with
            cluster := fat12_find_free_cluster fs,
            cluster_low := fat12_find_free_cluster fs,
            cluster_offset := 0,
            dirty := true }
        data w := by
  conv_rhs => rw [fat12_write_loop]
  rw [fat12_write_loop]
  simp only [fat12_alloc_cluster, if_neg hne, hc0, if_neg hcal, if_pos rfl, if_true]

theorem fat12_seek_zero (fs : Fat12Fs) (file : fat12_file_t)
    (hopen : file.f_open = true) (hspc1 : 1 ≤ fs.sectors_per_cluster)
    (hspc2 : fs.sectors_per_cluster ≤ 255) :
    fat12_seek fs file 0 =
      some ({ file with
                cluster := file.cluster_low,
                position := 0,
                cluster_offset := 0 }, true) := by
  unfold fat12_seek
  rw [if_neg (by simp [hopen])]
  rw [if_neg (show ¬ file.file_size < 0 by omega)]
  unfold fat12_seek_loop
  rw [if_neg (show ¬ (0 + fs.sectors_per_cluster * 512) % 4294967296 ≤ 0 by omega)]

theorem fat12_read_inner_nilstep (F : Nat) (disk : Disk) (file : fat12_file_t)
    (sector offset : Nat) (acc : List Nat) :
    fat12_read_inner (F + 1) disk file sector offset 0 acc = (file, acc) := by
  simp [fat12_read_inner]

theorem fat12_read_inner_spec (fuel : Nat) :
    ∀ (disk : Disk) (file : fat12_file_t) (base q to_read : Nat) (acc : List Nat)
      (data : List Nat),
    to_read + 512 * q = data.length →
    data.length ≤ 130560 →
    to_read < fuel →
    (∀ j, j < data.length →
      disk ((base + j / 512) % 4294967296) (j % 512) = data.getD j 0 % 256) →
    (∀ b ∈ data, b < 256) →
    (fat12_read_inner fuel disk file ((base + q) % 4294967296) 0 to_read acc).2 =
      acc ++ data.drop (512 * q) := by
  induction fuel with
  | zero =>
    intro _ _ _ _ _ _ _ _ _ hf _ _
    omega
  | succ F ihF =>
    intro disk file base q to_read acc data hq hlen hf hdisk hbytes
    by_cases h0 : to_read = 0
    · subst h0
      rw [fat12_read_inner_nilstep]
      rw [List.drop_eq_nil_of_le (by omega), List.append_nil]
    · simp only [fat12_read_inner, if_neg h0]
      have hbyteseq : (List.range (min (512 - 0) to_read)).map
          (fun i => disk ((base + q) % 4294967296) (0 + i) % 256) =
          (data.drop (512 * q)).take (min (512 - 0) to_read) := by
        apply List.ext_getElem
        · simp only [List.length_map, List.length_range, List.length_take,
            List.length_drop]
          omega
        · intro i h1i h2i
          simp only [List.getElem_map, List.getElem_range, List.getElem_take,
            List.getElem_drop]
          have h1i2 : i < min (512 - 0) to_read := by
            simpa using h1i
          have hji : 512 * q + i < data.length := by omega
          have hfact := hdisk (512 * q + i) hji
          rw [show (512 * q + i) / 512 = q by omega,
              show (512 * q + i) % 512 = i by omega] at hfact
          rw [show (0 : Nat) + i = i by omega, hfact]
          rw [List.getD_eq_getElem data 0 hji]
          have hmem := List.getElem_mem hji
          have hlt := hbytes _ hmem
          omega
      rw [hbyteseq]
      rw [show ((base + q) % 4294967296 + 1) % 4294967296 =
        (base + (q + 1)) % 4294967296 by omega]
      by_cases hsmall : to_read ≤ 512
      · have hchunk : min (512 - 0) to_read = to_read := by omega
        rw [hchunk, show to_read - to_read = 0 by omega]
        obtain ⟨F2, rfl⟩ : ∃ F2, F = F2 + 1 := ⟨F - 1, by omega⟩
        rw [fat12_read_inner_nilstep]
        rw [List.take_of_length_le (by simp only [List.length_drop]; omega)]
      · have hchunk : min (512 - 0) to_read = 512 := by omega
        rw [hchunk]
        rw [ihF disk _ base (q + 1) (to_read - 512) _ data (by omega) hlen (by omega)
          hdisk hbytes]
        rw [List.append_assoc]
        congr 1
        have hdd : (data.drop (512 * q)).drop 512 = data.drop (512 * (q + 1)) := by
          rw [List.drop_drop]
          congr 1
        rw [← hdd]
        exact List.take_append_drop 512 (data.drop (512 * q))

theorem fat12_read_loop_zero (F : Nat) (fs : Fat12Fs) (disk : Disk)
    (file : fat12_file_t) (acc : List Nat) :
    fat12_read_loop F fs disk file 0 acc = (file, acc) := by
  cases F with
  | zero => rfl
  | succ F2 => simp [fat12_read_loop]

theorem fat12_read_spec (fs : Fat12Fs) (disk : Disk) (file : fat12_file_t)
    (data : List Nat)
    (hopen : file.f_open = true) (hpos : file.position = 0)
    (hco : file.cluster_offset = 0)
    (hspc1 : 1 ≤ fs.sectors_per_cluster) (hspc2 : fs.sectors_per_cluster ≤ 255)
    (hn : 0 < data.length) (hcs : data.length ≤ fs.sectors_per_cluster * 512)
    (hfs : data.length ≤ file.file_size)
    (hdisk : ∀ j, j < data.length →
      disk ((fat12_cluster_to_sector fs file.cluster + j / 512) % 4294967296)
        (j % 512) = data.getD j 0 % 256)
    (hbytes : ∀ b ∈ data, b < 256) :
    (fat12_read fs disk file data.length).2 = data := by
  unfold fat12_read
  rw [if_neg (by simp [hopen])]
  rw [fat12_read_loop]
  rw [hpos, hco]
  rw [if_neg (show ¬ (data.length = 0 ∨ file.file_size ≤ 0) by omega)]
  simp only []
  rw [if_neg (show ¬ file.file_size - 0 < data.length by omega)]
  rw [if_neg (show ¬ fs.sectors_per_cluster * 512 ≤ 0 by omega)]
  simp only []
  rw [hco]
  rw [show (fs.sectors_per_cluster * 512 + 4294967296 - 0 % 4294967296) %
    4294967296 = fs.sectors_per_cluster * 512 by omega]
  rw [show (if data.length < fs.sectors_per_cluster * 512 then data.length
    else fs.sectors_per_cluster * 512) = data.length by split <;> omega]
  rw [show (0 : Nat) / 512 = 0 from rfl]
  rw [show (0 : Nat) % 512 = 0 from rfl]
  rw [show data.length - data.length = 0 by omega]
  rw [fat12_read_loop_zero]
  rw [fat12_read_inner_spec (data.length + 1) disk file
    (fat12_cluster_to_sector fs file.cluster) 0 data.length [] data (by omega)
    (by omega) (by omega) hdisk hbytes]
  simp

theorem fat12_write_loop_allocfail (fuel : Nat) (fs : Fat12Fs) (disk : Disk)
    (file : fat12_file_t) (data : List Nat) (w : Nat)
    (hne : data.length ≠ 0) (hc0 : file.cluster = 0)
    (hfail : fat12_find_free_cluster fs = 0) :
    fat12_write_loop (fuel + 1) fs disk file data w = (fs, disk, file, w) := by
  rw [fat12_write_loop]
  simp only [fat12_alloc_cluster, if_neg hne, hc0, hfail, if_pos rfl, if_true]

theorem fat12_roundtrip_tail (fs2 : Fat12Fs) (disk2 : Disk) (file2 : fat12_file_t)
    (data : List Nat)
    (hopen2 : file2.f_open = true)
    (hcll : file2.cluster = file2.cluster_low)
    (hspc1 : 1 ≤ fs2.sectors_per_cluster) (hspc2 : fs2.sectors_per_cluster ≤ 255)
    (hn : 0 < data.length) (hcs : data.length ≤ fs2.sectors_per_cluster * 512)
    (hfs2 : data.length ≤ file2.file_size)
    (hdisk2 : ∀ j, j < data.length →
      disk2 ((fat12_cluster_to_sector fs2 file2.cluster + j / 512) % 4294967296)
        (j % 512) = data.getD j 0 % 256)
    (hbytes : ∀ b ∈ data, b < 256) :
    ∃ f3, fat12_seek fs2 file2 0 = some (f3, true) ∧
      (fat12_read fs2 disk2 f3 data.length).2 = data := by
  refine ⟨_, fat12_seek_zero fs2 file2 hopen2 hspc1 hspc2, ?_⟩
  apply fat12_read_spec fs2 disk2
    { file2 with cluster := file2.cluster_low, position := 0, cluster_offset := 0 }
    data hopen2 rfl rfl hspc1 hspc2 hn hcs hfs2
  · intro j hj
    show disk2 ((fat12_cluster_to_sector fs2 file2.cluster_low + j / 512) % 4294967296)
      (j % 512) = data.getD j 0 % 256
    rw [← hcll]
    exact hdisk2 j hj
  · exact hbytes

/-- Claim C1: on a mounted FAT12 volume, a full write of at most one
cluster from a freshly positioned handle, followed by a seek to 0, reads
back exactly the written bytes. -/
theorem fat12_write_read_roundtrip_c1 (fs : Fat12Fs) (disk : Disk)
    (file : fat12_file_t) (data : List Nat)
    (hmounted : fs.mounted = true)
    (hspc1 : 1 ≤ fs.sectors_per_cluster) (hspc2 : fs.sectors_per_cluster ≤ 255)
    (hopen : file.f_open = true)
    (hpos : file.position = 0) (hco : file.cluster_offset = 0)
    (hcl : file.cluster = file.cluster_low)
    (hn : 0 < data.length)
    (hlen : data.length ≤ fs.sectors_per_cluster * 512)
    (hbytes : ∀ b ∈ data, b < 256)
    (hret : (fat12_write fs disk file data).2.2.2 = data.length) :
    ∃ file2,
      fat12_seek (fat12_write fs disk file data).1
        (fat12_write fs disk file data).2.2.1 0 = some (file2, true) ∧
      (fat12_read (fat12_write fs disk file data).1
        (fat12_write fs disk file data).2.1 file2 data.length).2 = data := by
  have hW : fat12_write fs disk file data =
      fat12_write_loop (data.length + 1) fs disk file data 0 := by
    unfold fat12_write
    rw [if_neg (by simp [hopen])]
  rw [hW] at hret ⊢
  by_cases hc0 : file.cluster = 0
  · by_cases hff : fat12_find_free_cluster fs = 0
    · rw [fat12_write_loop_allocfail data.length fs disk file data 0
        (by omega) hc0 hff] at hret
      exact absurd hret (by show ¬ (0 = data.length); omega)
    · rw [fat12_write_loop_alloc data.length fs disk file data 0
        (by omega) hc0 hff] at hret ⊢
      obtain ⟨i1, i2, i3, i4, i5, i6, i7, i8, i9⟩ :=
        fat12_write_loop_spec (data.length + 1)
          { fs with
              fat_cache :=
                fat12_write_fat fs.fat_cache (fat12_find_free_cluster fs) 4095,
              fat_dirty := true }
          disk
          { file with
              cluster := fat12_find_free_cluster fs,
              cluster_low := fat12_find_free_cluster fs,
              cluster_offset := 0,
              dirty := true }
          data 0 0 hff
          (by show (0 : Nat) = 512 * 0; omega)
          (by show file.position = 512 * 0; omega)
          hn
          (by show 512 * 0 + data.length ≤ fs.sectors_per_cluster * 512; omega)
          (by show fs.sectors_per_cluster ≤ 255; omega)
          (by omega)
      rw [i1]
      apply fat12_roundtrip_tail
      · rw [i3]
        exact hopen
      · rw [i4, i5]
      · exact hspc1
      · exact hspc2
      · exact hn
      · exact hlen
      · rw [i7]
        split <;> omega
      · intro j hj
        rw [i4]
        have hfact := i8 j hj
        rw [show 512 * 0 + j = j by omega] at hfact
        exact hfact
      · exact hbytes
  · obtain ⟨i1, i2, i3, i4, i5, i6, i7, i8, i9⟩ :=
      fat12_write_loop_spec (data.length + 1) fs disk file data 0 0 hc0
        (by omega) (by omega) hn (by omega) hspc2 (by omega)
    rw [i1]
    apply fat12_roundtrip_tail
    · rw [i3]
      exact hopen
    · rw [i4, i5]
      exact hcl
    · exact hspc1
    · exact hspc2
    · exact hn
    · exact hlen
    · rw [i7]
      split <;> omega
    · intro j hj
      rw [i4]
      have hfact := i8 j hj
      rw [show 512 * 0 + j = j by omega] at hfact
      exact hfact
    · exact hbytes

set_option maxRecDepth 100000 in
/-- Witness for C1: writing the single byte 7 into a fresh empty file on
the tiny volume (allocating cluster 2), then seek 0 and read 1 byte. -/
theorem fat12_write_read_roundtrip_c1_witness :
    ∃ file2,
      fat12_seek (fat12_write tinyFs tinyDisk c1FreshFile [7]).1
        (fat12_write tinyFs tinyDisk c1FreshFile [7]).2.2.1 0 =
        some (file2, true) ∧
      (fat12_read (fat12_write tinyFs tinyDisk c1FreshFile [7]).1
        (fat12_write tinyFs tinyDisk c1FreshFile [7]).2.1 file2 1).2 = [7] :=
  fat12_write_read_roundtrip_c1 tinyFs tinyDisk c1FreshFile [7]
    (by decide) (by decide) (by decide) (by decide) rfl rfl rfl (by decide)
    (by decide) (by decide) (by decide)

set_option maxRecDepth 100000 in
/-- Counterexample to the unrestricted C1 round trip: with the corrupt FAT
self-loop `FAT[2] = 2`, writing 513 bytes (a zero sector then the byte 1)
reports 513 bytes written, but the second sector overwrote the first, so
reading back returns 1 at offset 0 where 0 was written. -/
theorem fat12_write_read_roundtrip_c1_counterexample :
    c1Write.2.2.2 = 513 ∧ c1ReadBack.getD 0 0 = 1 ∧ c1Data.getD 0 0 = 0 := by
  decide

end Fat12

namespace Fat12

theorem syncFats_outside (fs : Fat12Fs) (d : Disk) (nf : Nat) (s : Nat)
    (hs : fs.fat_start + nf * fs.fat_size_16 ≤ s) (j : Nat) :
    syncFats fs nf d s j = d s j := by
  induction nf with
  | zero => rfl
  | succ k ih =>
    have hmul : (k + 1) * fs.fat_size_16 = k * fs.fat_size_16 + fs.fat_size_16 := by
      ring
    simp only [syncFats]
    rw [syncCopy_apply_outside]
    · exact ih (by omega)
    · intro i hi
      omega

theorem fat12_sync_outside (fs : Fat12Fs) (d : Disk) (s : Nat)
    (hs : fs.fat_start + fs.num_fats * fs.fat_size_16 ≤ s) (j : Nat) :
    (fat12_sync fs d).2 s j = d s j := by
  unfold fat12_sync
  split
  · rfl
  · exact syncFats_outside fs d fs.num_fats s hs j

theorem fat12_sync_fst_layout (fs : Fat12Fs) (d : Disk) :
    (fat12_sync fs d).1.root_start = fs.root_start ∧
    (fat12_sync fs d).1.root_sectors = fs.root_sectors ∧
    (fat12_sync fs d).1.fat_start = fs.fat_start ∧
    (fat12_sync fs d).1.num_fats = fs.num_fats ∧
    (fat12_sync fs d).1.fat_size_16 = fs.fat_size_16 := by
  unfold fat12_sync
  split
  · exact ⟨rfl, rfl, rfl, rfl, rfl⟩
  · exact ⟨rfl, rfl, rfl, rfl, rfl⟩

theorem fat12_scan_entries_props (sec : Nat → Nat) (nb eb : List Nat) :
    ∀ (cnt i0 i : Nat), fat12_scan_entries sec nb eb cnt i0 = some i →
    i0 ≤ i ∧ i < i0 + cnt ∧ sec (i * 32) % 256 ≠ 0 ∧ sec (i * 32) % 256 ≠ 229 ∧
    sec (i * 32 + 11) % 256 ≠ 15 ∧ fat12_name_match sec (i * 32) nb eb = true := by
  intro cnt
  induction cnt with
  | zero =>
    intro i0 i h
    exact absurd h (by simp [fat12_scan_entries])
  | succ k ih =>
    intro i0 i h
    simp only [fat12_scan_entries] at h
    split at h
    · exact absurd h (by simp)
    split at h
    next h229 =>
      obtain ⟨p1, p2, p3⟩ := ih (i0 + 1) i h
      exact ⟨by omega, by omega, p3⟩
    split at h
    next hlfn =>
      obtain ⟨p1, p2, p3⟩ := ih (i0 + 1) i h
      exact ⟨by omega, by omega, p3⟩
    split at h
    next h0 h229 hlfn hm =>
      cases h
      exact ⟨Nat.le.refl, by omega, h0, h229, hlfn, hm⟩
    next =>
      obtain ⟨p1, p2, p3⟩ := ih (i0 + 1) i h
      exact ⟨by omega, by omega, p3⟩

theorem fat12_scan_root_props (fs : Fat12Fs) (disk : Disk) (nb eb : List Nat) :
    ∀ (cnt s0 sec idx : Nat),
    fat12_scan_root fs disk nb eb cnt s0 = some (sec, idx) →
    fs.root_start + s0 ≤ sec ∧ sec < fs.root_start + s0 + cnt ∧ idx < 16 ∧
    disk sec (idx * 32) % 256 ≠ 0 ∧ disk sec (idx * 32) % 256 ≠ 229 ∧
    disk sec (idx * 32 + 11) % 256 ≠ 15 ∧
    fat12_name_match (disk sec) (idx * 32) nb eb = true := by
  intro cnt
  induction cnt with
  | zero =>
    intro s0 sec idx h
    exact absurd h (by simp [fat12_scan_root])
  | succ k ih =>
    intro s0 sec idx h
    simp only [fat12_scan_root] at h
    split at h
    next i hinner =>
      have hsec : sec = fs.root_start + s0 := by
        injection h with h2
        exact (congrArg Prod.fst h2).symm
      have hidx : idx = i := by
        injection h with h2
        exact (congrArg Prod.snd h2).symm
      subst hsec
      subst hidx
      obtain ⟨q1, q2, q3⟩ := fat12_scan_entries_props _ nb eb 16 0 idx hinner
      exact ⟨by omega, by omega, by omega, q3⟩
    next =>
      obtain ⟨p1, p2⟩ := ih (s0 + 1) sec idx h
      exact ⟨by omega, by omega, p2.2⟩

theorem fat12_read_dir_root_total (fs : Fat12Fs) (disk : Disk) :
    ∀ (fuel : Nat) (dir : fat12_dir_t),
    dir.is_root = true → dir.entry ≤ 15 → fs.root_start ≤ dir.sector →
    0 < fuel →
    (fs.root_start + fs.root_sectors) * 16 < dir.sector * 16 + dir.entry + fuel →
    ∃ dir2 res, fat12_read_dir fuel fs disk dir = some (dir2, res) ∧
      dir2.is_root = true ∧ dir2.entry ≤ 15 ∧ fs.root_start ≤ dir2.sector ∧
      (∀ sec e, res = some (sec, e) →
        fs.root_start ≤ sec ∧ sec < fs.root_start + fs.root_sectors ∧ e < 16 ∧
        dir.sector * 16 + dir.entry ≤ sec * 16 + e ∧
        dir2.sector * 16 + dir2.entry = sec * 16 + e + 1 ∧
        disk sec (e * 32) % 256 ≠ 0 ∧ disk sec (e * 32) % 256 ≠ 229 ∧
        disk sec (e * 32 + 11) % 256 ≠ 15) := by
  intro fuel
  induction fuel with
  | zero =>
    intro dir _ _ _ hpos _
    omega
  | succ F ih =>
    intro dir hroot hentry hsec hposf hfuel
    by_cases hend : fs.root_start + fs.root_sectors ≤ dir.sector
    · refine ⟨dir, none, ?_, hroot, hentry, hsec, by simp⟩
      simp only [fat12_read_dir]
      rw [if_pos ⟨hroot, hend⟩]
    · simp only [fat12_read_dir]
      rw [if_neg (show ¬ (dir.is_root = true ∧
        fs.root_start + fs.root_sectors ≤ dir.sector) by tauto)]
      rw [if_neg (show ¬ (¬ dir.is_root = true ∧
        fat12_cluster_to_sector fs dir.cluster + fs.sectors_per_cluster ≤
          dir.sector) by tauto)]
      by_cases h16 : 16 ≤ dir.entry + 1
      · have hent15 : dir.entry = 15 := by omega
        rw [if_pos h16]
        by_cases h0 : disk dir.sector (dir.entry * 32) % 256 = 0
        · rw [if_pos h0]
          refine ⟨_, none, rfl, hroot, ?_, ?_, by simp⟩
          · show (0 : Nat) ≤ 15
            omega
          · show fs.root_start ≤ (dir.sector + 1)
            omega
        · rw [if_neg h0]
          by_cases h229 : disk dir.sector (dir.entry * 32) % 256 = 229
          · rw [if_pos h229]
            obtain ⟨d3, res, e1, e2, e3, e4, e5⟩ :=
              ih { dir with entry := 0, sector := dir.sector + 1 } hroot
              (by show (0 : Nat) ≤ 15; omega)
              (by show fs.root_start ≤ (dir.sector + 1); omega)
              (by omega)
              (by show (fs.root_start + fs.root_sectors) * 16 <
                (dir.sector + 1) * 16 + (0 : Nat) + F; omega)
            refine ⟨d3, res, e1, e2, e3, e4, ?_⟩
            intro sec e hres
            obtain ⟨f1, f2, f3, f4, f5⟩ := e5 sec e hres
            have f4b : (dir.sector + 1) * 16 + (0 : Nat) ≤ sec * 16 + e := f4
            exact ⟨f1, f2, f3, by omega, f5⟩
          · rw [if_neg h229]
            by_cases hlfn : disk dir.sector (dir.entry * 32 + 11) % 256 = 15
            · rw [if_pos hlfn]
              obtain ⟨d3, res, e1, e2, e3, e4, e5⟩ :=
                ih { dir with entry := 0, sector := dir.sector + 1 } hroot
                (by show (0 : Nat) ≤ 15; omega)
                (by show fs.root_start ≤ (dir.sector + 1); omega)
                (by omega)
                (by show (fs.root_start + fs.root_sectors) * 16 <
                  (dir.sector + 1) * 16 + (0 : Nat) + F; omega)
              refine ⟨d3, res, e1, e2, e3, e4, ?_⟩
              intro sec e hres
              obtain ⟨f1, f2, f3, f4, f5⟩ := e5 sec e hres
              have f4b : (dir.sector + 1) * 16 + (0 : Nat) ≤ sec * 16 + e := f4
              exact ⟨f1, f2, f3, by omega, f5⟩
            · rw [if_neg hlfn]
              refine ⟨_, some (dir.sector, dir.entry), rfl, hroot, ?_, ?_, ?_⟩
              · show (0 : Nat) ≤ 15
                omega
              · show fs.root_start ≤ (dir.sector + 1)
                omega
              · intro sec e hres
                have hse : sec = dir.sector ∧ e = dir.entry := by
                  injection hres with h2
                  exact ⟨(congrArg Prod.fst h2).symm, (congrArg Prod.snd h2).symm⟩
                obtain ⟨hs1, he1⟩ := hse
                subst hs1
                subst he1
                refine ⟨hsec, by omega, by omega, by omega, ?_, h0, h229, hlfn⟩
                show (dir.sector + 1) * 16 + (0 : Nat) = dir.sector * 16 + dir.entry + 1
                omega
      · rw [if_neg h16]
        by_cases h0 : disk dir.sector (dir.entry * 32) % 256 = 0
        · rw [if_pos h0]
          refine ⟨_, none, rfl, hroot, ?_, ?_, by simp⟩
          · show (dir.entry + 1) ≤ 15
            omega
          · show fs.root_start ≤ dir.sector
            omega
        · rw [if_neg h0]
          by_cases h229 : disk dir.sector (dir.entry * 32) % 256 = 229
          · rw [if_pos h229]
            obtain ⟨d3, res, e1, e2, e3, e4, e5⟩ :=
              ih { dir with entry := dir.entry + 1 } hroot
              (by show (dir.entry + 1) ≤ 15; omega)
              (by show fs.root_start ≤ dir.sector; omega)
              (by omega)
              (by show (fs.root_start + fs.root_sectors) * 16 <
                dir.sector * 16 + (dir.entry + 1) + F; omega)
            refine ⟨d3, res, e1, e2, e3, e4, ?_⟩
            intro sec e hres
            obtain ⟨f1, f2, f3, f4, f5⟩ := e5 sec e hres
            have f4b : dir.sector * 16 + (dir.entry + 1) ≤ sec * 16 + e := f4
            exact ⟨f1, f2, f3, by omega, f5⟩
          · rw [if_neg h229]
            by_cases hlfn : disk dir.sector (dir.entry * 32 + 11) % 256 = 15
            · rw [if_pos hlfn]
              obtain ⟨d3, res, e1, e2, e3, e4, e5⟩ :=
                ih { dir with entry := dir.entry + 1 } hroot
                (by show (dir.entry + 1) ≤ 15; omega)
                (by show fs.root_start ≤ dir.sector; omega)
                (by omega)
                (by show (fs.root_start + fs.root_sectors) * 16 <
                  dir.sector * 16 + (dir.entry + 1) + F; omega)
              refine ⟨d3, res, e1, e2, e3, e4, ?_⟩
              intro sec e hres
              obtain ⟨f1, f2, f3, f4, f5⟩ := e5 sec e hres
              have f4b : dir.sector * 16 + (dir.entry + 1) ≤ sec * 16 + e := f4
              exact ⟨f1, f2, f3, by omega, f5⟩
            · rw [if_neg hlfn]
              refine ⟨_, some (dir.sector, dir.entry), rfl, hroot, ?_, ?_, ?_⟩
              · show (dir.entry + 1) ≤ 15
                omega
              · show fs.root_start ≤ dir.sector
                omega
              · intro sec e hres
                have hse : sec = dir.sector ∧ e = dir.entry := by
                  injection hres with h2
                  exact ⟨(congrArg Prod.fst h2).symm, (congrArg Prod.snd h2).symm⟩
                obtain ⟨hs1, he1⟩ := hse
                subst hs1
                subst he1
                refine ⟨hsec, by omega, by omega, by omega, ?_, h0, h229, hlfn⟩
                show dir.sector * 16 + (dir.entry + 1) = dir.sector * 16 + dir.entry + 1
                omega

theorem fat12_find_in_dir_none (fs : Fat12Fs) (disk : Disk) (nb eb : List Nat) :
    ∀ (fuel : Nat) (dir : fat12_dir_t),
    dir.is_root = true → dir.entry ≤ 15 → fs.root_start ≤ dir.sector →
    0 < fuel →
    (fs.root_start + fs.root_sectors) * 16 < dir.sector * 16 + dir.entry + fuel →
    (∀ s e, fs.root_start ≤ s → s < fs.root_start + fs.root_sectors → e < 16 →
      ¬(disk s (e * 32) % 256 ≠ 0 ∧ disk s (e * 32) % 256 ≠ 229 ∧
        disk s (e * 32 + 11) % 256 ≠ 15 ∧
        fat12_name_match (disk s) (e * 32) nb eb = true)) →
    ∃ dir2, fat12_find_in_dir fuel fs disk dir nb eb = some (dir2, none) := by
  intro fuel
  induction fuel with
  | zero =>
    intro dir _ _ _ h0 _ _
    omega
  | succ F ih =>
    intro dir hroot hentry hsec hposf hfuel hno
    obtain ⟨dir2, res, e1, e2, e3, e4, e5⟩ :=
      fat12_read_dir_root_total fs disk (F + 1) dir hroot hentry hsec
        (by omega) hfuel
    cases res with
    | none =>
      refine ⟨dir2, ?_⟩
      simp only [fat12_find_in_dir]
      rw [e1]
    | some se =>
      obtain ⟨sec, e⟩ := se
      obtain ⟨f1, f2, f3, f4, f5, f6, f7, f8⟩ := e5 sec e rfl
      have hm : ¬ fat12_name_match (disk sec) (e * 32) nb eb = true :=
        fun hmm => hno sec e f1 f2 f3 ⟨f6, f7, f8, hmm⟩
      obtain ⟨d3, hd3⟩ := ih dir2 e2 e3 e4 (by omega) (by omega) hno
      refine ⟨d3, ?_⟩
      simp only [fat12_find_in_dir]
      rw [e1]
      simp only [if_neg hm]
      exact hd3

theorem fat12_name_match_true_iff (sec : Nat → Nat) (off : Nat) (nb eb : List Nat) :
    fat12_name_match sec off nb eb = true ↔
    ((∀ i, i < 8 → sec (off + i) % 256 = nb.getD i 0) ∧
     (∀ i, i < 3 → sec (off + 8 + i) % 256 = eb.getD i 0)) := by
  simp [fat12_name_match, List.all_eq_true, List.mem_range]

theorem fat12_delete_found (fs : Fat12Fs) (disk : Disk) (path : List Char)
    (sec0 idx0 : Nat)
    (hpe : ¬ (fat12_strip_slash path).isEmpty = true)
    (hscan : fat12_scan_root fs disk
      (fat12_string_to_name (fat12_strip_slash path)).1
      (fat12_string_to_name (fat12_strip_slash path)).2 fs.root_sectors 0 =
      some (sec0, idx0))
    (hattr : ¬ disk sec0 (idx0 * 32 + 11) % 256 / 16 % 2 = 1) :
    ∃ fs1 : Fat12Fs,
      fat12_delete fs disk path =
        ((fat12_sync fs1 (writeSector disk sec0
            (fun b => if b = idx0 * 32 then 229 else disk sec0 b))).1,
         (fat12_sync fs1 (writeSector disk sec0
            (fun b => if b = idx0 * 32 then 229 else disk sec0 b))).2,
         true) ∧
      fs1.root_start = fs.root_start ∧ fs1.root_sectors = fs.root_sectors ∧
      fs1.fat_start = fs.fat_start ∧ fs1.num_fats = fs.num_fats ∧
      fs1.fat_size_16 = fs.fat_size_16 := by
  refine ⟨if 2 ≤ le16 (disk sec0) (idx0 * 32 + 26) then
      { fs with
          fat_cache := ((fat12_free_chain_run 4088 fs.fat_cache
            (le16 (disk sec0) (idx0 * 32 + 26))).getD (fs.fat_cache, [])).1,
          fat_dirty := if ((fat12_free_chain_run 4088 fs.fat_cache
              (le16 (disk sec0) (idx0 * 32 + 26))).getD
                (fs.fat_cache, [])).2.isEmpty = true
            then fs.fat_dirty else true }
    else fs, ?_, ?_, ?_, ?_, ?_, ?_⟩
  · simp only [fat12_delete]
    rw [if_neg hpe, hscan]
    simp only []
    rw [if_neg hattr]
  · split <;> rfl
  · split <;> rfl
  · split <;> rfl
  · split <;> rfl
  · split <;> rfl

theorem fat12_open_none (fs2 : Fat12Fs) (disk2 : Disk) (path : List Char)
    (hpne : fat12_strip_slash path ≠ [])
    (hlen12 : (fat12_strip_slash path).length ≤ 12)
    (hnoslash : ∀ c ∈ fat12_strip_slash path, c ≠ '/')
    (hnolive : ∀ s e, fs2.root_start ≤ s → s < fs2.root_start + fs2.root_sectors →
      e < 16 →
      ¬(disk2 s (e * 32) % 256 ≠ 0 ∧ disk2 s (e * 32) % 256 ≠ 229 ∧
        disk2 s (e * 32 + 11) % 256 ≠ 15 ∧
        fat12_name_match (disk2 s) (e * 32)
          (fat12_string_to_name (fat12_strip_slash path)).1
          (fat12_string_to_name (fat12_strip_slash path)).2 = true)) :
    fat12_open fs2 disk2 path = some false := by
  have hcomp : ((fat12_strip_slash path).takeWhile (fun c => c ≠ '/')).take 12 =
      fat12_strip_slash path := by
    have h1 : (fat12_strip_slash path).takeWhile (fun c => c ≠ '/') =
        fat12_strip_slash path := by
      rw [List.takeWhile_eq_self_iff]
      intro c hc
      simpa using hnoslash c hc
    rw [h1]
    exact List.take_of_length_le hlen12
  obtain ⟨d2, hfind⟩ := fat12_find_in_dir_none fs2 disk2
    (fat12_string_to_name (fat12_strip_slash path)).1
    (fat12_string_to_name (fat12_strip_slash path)).2
    (16 * fs2.root_sectors + 2)
    { sector := fs2.root_start, entry := 0, cluster := 0, is_root := true }
    rfl (by show (0 : Nat) ≤ 15; omega)
    (by show fs2.root_start ≤ fs2.root_start; omega)
    (by omega)
    (by show (fs2.root_start + fs2.root_sectors) * 16 <
      fs2.root_start * 16 + 0 + (16 * fs2.root_sectors + 2); omega)
    hnolive
  unfold fat12_open
  rw [if_neg (by simpa using hpne)]
  rw [fat12_open_loop]
  rw [hcomp, hfind]

/-- Claim C7: deleting a root directory entry.  Part one: when the first
matching live root entry carries the directory attribute, `fat12_delete`
returns false and leaves the filesystem state and the disk untouched.
Part two: for a single-component path with at most one live matching root
entry, a successful `fat12_delete` makes a subsequent `fat12_open` of the
same path return false. -/
theorem fat12_delete_open_c7 (fs : Fat12Fs) (disk : Disk) (path : List Char)
    (hlayout : fs.root_start = fs.fat_start + fs.num_fats * fs.fat_size_16) :
    (∀ sec idx,
      fat12_scan_root fs disk
        (fat12_string_to_name (fat12_strip_slash path)).1
        (fat12_string_to_name (fat12_strip_slash path)).2 fs.root_sectors 0 =
        some (sec, idx) →
      disk sec (idx * 32 + 11) % 256 / 16 % 2 = 1 →
      fat12_delete fs disk path = (fs, disk, false)) ∧
    (fat12_strip_slash path ≠ [] →
     (fat12_strip_slash path).length ≤ 12 →
     (∀ c ∈ fat12_strip_slash path, c ≠ '/') →
     (∀ s i s2 i2,
        LiveMatchEntry fs disk (fat12_string_to_name (fat12_strip_slash path)).1
          (fat12_string_to_name (fat12_strip_slash path)).2 s i →
        LiveMatchEntry fs disk (fat12_string_to_name (fat12_strip_slash path)).1
          (fat12_string_to_name (fat12_strip_slash path)).2 s2 i2 →
        s = s2 ∧ i = i2) →
     (fat12_delete fs disk path).2.2 = true →
     fat12_open (fat12_delete fs disk path).1 (fat12_delete fs disk path).2.1
       path = some false) := by
  constructor
  · intro sec idx hscan hattr
    by_cases hpe : (fat12_strip_slash path).isEmpty = true
    · simp only [fat12_delete]
      rw [if_pos hpe]
    · simp only [fat12_delete]
      rw [if_neg hpe, hscan]
      simp only []
      rw [if_pos hattr]
  · intro hpne hlen12 hnoslash huniq hdel
    have hpe : ¬ (fat12_strip_slash path).isEmpty = true := by
      simpa using hpne
    simp only [fat12_delete] at hdel
    rw [if_neg hpe] at hdel
    cases hscan : fat12_scan_root fs disk
        (fat12_string_to_name (fat12_strip_slash path)).1
        (fat12_string_to_name (fat12_strip_slash path)).2 fs.root_sectors 0 with
    | none =>
      rw [hscan] at hdel
      exact absurd hdel (by simp)
    | some si =>
      obtain ⟨sec0, idx0⟩ := si
      rw [hscan] at hdel
      simp only [] at hdel
      by_cases hattr : disk sec0 (idx0 * 32 + 11) % 256 / 16 % 2 = 1
      · rw [if_pos hattr] at hdel
        exact absurd hdel (by simp)
      · obtain ⟨sp1, sp2, sp3, sp4, sp5, sp6, sp7⟩ :=
          fat12_scan_root_props fs disk _ _ fs.root_sectors 0 sec0 idx0 hscan
        obtain ⟨fs1, hdeq, hL1, hL2, hL3, hL4, hL5⟩ :=
          fat12_delete_found fs disk path sec0 idx0 hpe hscan hattr
        rw [hdeq]
        show fat12_open
          ((fat12_sync fs1 (writeSector disk sec0
            (fun b => if b = idx0 * 32 then 229 else disk sec0 b))).1)
          ((fat12_sync fs1 (writeSector disk sec0
            (fun b => if b = idx0 * 32 then 229 else disk sec0 b))).2)
          path = some false
        obtain ⟨hy1, hy2, hy3, hy4, hy5⟩ := fat12_sync_fst_layout fs1
          (writeSector disk sec0 (fun b => if b = idx0 * 32 then 229 else disk sec0 b))
        apply fat12_open_none _ _ path hpne hlen12 hnoslash
        intro s e hs1 hs2 he
        rw [hy1, hL1] at hs1
        rw [hy1, hL1, hy2, hL2] at hs2
        have hdpres : ∀ b,
            (fat12_sync fs1 (writeSector disk sec0
              (fun b => if b = idx0 * 32 then 229 else disk sec0 b))).2 s b =
            (writeSector disk sec0
              (fun b => if b = idx0 * 32 then 229 else disk sec0 b)) s b := by
          intro b
          apply fat12_sync_outside
          rw [hL3, hL4, hL5]
          omega
        rintro ⟨c1, c2, c3, c4⟩
        by_cases hseq : s = sec0 ∧ e = idx0
        · obtain ⟨hseq1, hseq2⟩ := hseq
          subst hseq1
          subst hseq2
          apply c2
          rw [hdpres, writeSector_same, if_pos rfl]
        · have hne2 : s = sec0 → e ≠ idx0 := fun hss hee => hseq ⟨hss, hee⟩
          have hbyte : ∀ x, (s = sec0 → x ≠ idx0 * 32) →
              (fat12_sync fs1 (writeSector disk sec0
                (fun b => if b = idx0 * 32 then 229 else disk sec0 b))).2 s x =
              disk s x := by
            intro x hx
            rw [hdpres]
            by_cases hss : s = sec0
            · subst hss
              rw [writeSector_same, if_neg (hx rfl)]
            · rw [writeSector_other _ _ _ _ _ hss]
          have hb0 := hbyte (e * 32) (fun hss => by have := hne2 hss; omega)
          have hb11 := hbyte (e * 32 + 11) (fun hss => by have := hne2 hss; omega)
          rw [hb0] at c1 c2
          rw [hb11] at c3
          have hmatch : fat12_name_match (disk s) (e * 32)
              (fat12_string_to_name (fat12_strip_slash path)).1
              (fat12_string_to_name (fat12_strip_slash path)).2 = true := by
            rw [fat12_name_match_true_iff] at c4 ⊢
            obtain ⟨m1, m2⟩ := c4
            constructor
            · intro i hi
              rw [← hbyte (e * 32 + i) (fun hss => by have := hne2 hss; omega)]
              exact m1 i hi
            · intro i hi
              rw [← hbyte (e * 32 + 8 + i) (fun hss => by have := hne2 hss; omega)]
              exact m2 i hi
          have hlm : LiveMatchEntry fs disk
              (fat12_string_to_name (fat12_strip_slash path)).1
              (fat12_string_to_name (fat12_strip_slash path)).2 s e :=
            ⟨hs1, hs2, he, c1, c2, c3, hmatch⟩
          have hlm0 : LiveMatchEntry fs disk
              (fat12_string_to_name (fat12_strip_slash path)).1
              (fat12_string_to_name (fat12_strip_slash path)).2 sec0 idx0 :=
            ⟨by omega, by omega, sp3, sp4, sp5, sp6, sp7⟩
          obtain ⟨hq1, hq2⟩ := huniq s e sec0 idx0 hlm hlm0
          exact hseq ⟨hq1, hq2⟩

set_option maxRecDepth 100000 in
/-- Witness for C7: on a mounted tiny volume whose root entry "B" has the
directory attribute set, fat12_delete("/B") returns false and leaves both
the filesystem state and the disk untouched. -/
theorem fat12_delete_open_c7_witness :
    fat12_delete dirFs dirDisk "/B".toList = (dirFs, dirDisk, false) :=
  (fat12_delete_open_c7 dirFs dirDisk ("/B".toList) (by decide)).1 2 0
    (by decide) (by decide)

set_option maxRecDepth 100000 in
/-- Counterexample for C7 as claimed: on a volume whose root directory holds
two live entries both named "A", fat12_delete("/A") succeeds (returns true)
but marks only the first entry deleted, so fat12_open("/A") still returns
true afterwards. -/
theorem fat12_delete_open_c7_counterexample :
    c7Delete.2.2 = true ∧ c7Reopen = some true := by
  constructor
  · decide
  · decide

end Fat12
